import Mathlib

/-!
Verification development for the unix_file_tree_generator repository.

The definitions below are a shallow embedding of the Python source:
  * `src/gen/nodes/base.py`   — AbstractNode / AbstractLeafNode
  * `src/gen/nodes/node.py`   — File / HardLink / SymLink / Directory and the
                                aggregate metric properties
  * `src/gen/tree_gen2.py`    — TreeGenerator2 (logical tree synthesis,
                                path chunking, link phases)
  * `src/gen/utils/utilits.py`— name_generator, get_random_timestamp,
                                make_symlink

Python machine details are modelled as follows: the global `random` module
generator is an explicit deterministic state threaded through the code in
program order; `raise` is `Except.error`; object mutation is functional
update; formatted timestamp strings are kept as their underlying epoch
integers (strftime with a fixed format is injective on them).
-/

namespace UnixTreeGen

/-- Snapshot of a link target (`file_obj` of SymLink after make_symlink
flattens it to a dict with name/dest/owner; HardLink keeps the target's
identifying fields). Stored flat to avoid the cyclic references the spec
notes. -/
structure TargetRef where
  tname : String
  tdest : String
  towner : String
deriving Repr, DecidableEq

/-- The node model of `src/gen/nodes/base.py` and `src/gen/nodes/node.py`.
A `dir` carries `_sub_nodes`; the leaves (File, HardLink, SymLink) have an
always-empty `_sub_nodes` in the source, so they carry none here.
File/SymLink `atime`/`mtime` are the epoch seconds the source formats with
`TIME_FORMAT`. -/
inductive Node where
  | dir (dest name owner : String) (possibleOwners : List String) (subNodes : List Node)
  | file (dest name owner : String) (size : Nat) (atime mtime : Int)
  | hardLink (dest name owner : String) (target : TargetRef)
  | symLink (dest name owner : String) (target : TargetRef) (size : Nat) (atime mtime : Int)
deriving Repr

namespace Node

/-- `name` attribute of AbstractNode. -/
def name : Node → String
  | .dir _ n _ _ _ => n
  | .file _ n _ _ _ _ => n
  | .hardLink _ n _ _ => n
  | .symLink _ n _ _ _ _ _ => n

/-- `dest` attribute of AbstractNode. -/
def dest : Node → String
  | .dir d _ _ _ _ => d
  | .file d _ _ _ _ _ => d
  | .hardLink d _ _ _ => d
  | .symLink d _ _ _ _ _ _ => d

/-- `owner` attribute of AbstractNode. -/
def owner : Node → String
  | .dir _ _ o _ _ => o
  | .file _ _ o _ _ _ => o
  | .hardLink _ _ o _ => o
  | .symLink _ _ o _ _ _ _ => o

/-- `_sub_nodes`: the child list of a Directory; leaves share the constant
empty list `EMPTY_NODES`. -/
def subNodes : Node → List Node
  | .dir _ _ _ _ cs => cs
  | _ => []

/-- `possible_owners` attribute of Directory (only directories carry it). -/
def possibleOwners : Node → List String
  | .dir _ _ _ po _ => po
  | _ => []

/-- `size` attribute (File and SymLink carry one). -/
def sizeAttr : Node → Nat
  | .file _ _ _ s _ _ => s
  | .symLink _ _ _ _ s _ _ => s
  | _ => 0

/-- `isinstance(x, Directory)`. -/
def isDir : Node → Bool
  | .dir _ _ _ _ _ => true
  | _ => false

/-- `isinstance(x, File)`. -/
def isFile : Node → Bool
  | .file _ _ _ _ _ _ => true
  | _ => false

/-- `isinstance(x, HardLink)`. -/
def isHardLink : Node → Bool
  | .hardLink _ _ _ _ => true
  | _ => false

/-- `isinstance(x, SymLink)`. -/
def isSymLink : Node → Bool
  | .symLink _ _ _ _ _ _ _ => true
  | _ => false

/-- A leaf node: File, HardLink or SymLink (subclass of AbstractLeafNode). -/
def isLeaf (n : Node) : Bool :=
  n.isFile || n.isHardLink || n.isSymLink

/-- `full_path = os.path.join(dest, name)` (dest has no trailing slash in
this program, so join is concatenation with a separator). -/
def fullPath (n : Node) : String :=
  n.dest ++ "/" ++ n.name

end Node

mutual
/-- `sub_nodes_generator(recursive=True)` without type constraint: for each
direct sub-node, yield it and then recursively yield its sub-nodes. Leaves
contribute nothing (their `_sub_nodes` is empty). -/
def subNodesRec : Node → List Node
  | .dir _ _ _ _ cs => subNodesRecList cs
  | _ => []

/-- The sequence `sub_nodes_generator(recursive=True)` yields for a child
list: each child, followed by that child's recursive sub-nodes. -/
def subNodesRecList : List Node → List Node
  | [] => []
  | c :: cs => c :: (subNodesRec c ++ subNodesRecList cs)
end

/-- `get_nodes_count(type_constraint)`: length of the non-recursive
generator filtered by the type constraint. -/
def getNodesCount (p : Node → Bool) (n : Node) : Nat :=
  (n.subNodes.filter p).length

/-- `get_all_nodes_count(type_constraint)`: length of the recursive
generator filtered by the type constraint. -/
def getAllNodesCount (p : Node → Bool) (n : Node) : Nat :=
  ((subNodesRec n).filter p).length

/-- `Directory.files`: direct File children. -/
def dirFiles (n : Node) : List Node :=
  n.subNodes.filter Node.isFile

/-- `Directory.symlinks`: direct SymLink children. -/
def dirSymlinks (n : Node) : List Node :=
  n.subNodes.filter Node.isSymLink

/-- `Directory.sub_dirs`: direct Directory children. -/
def dirSubDirs (n : Node) : List Node :=
  n.subNodes.filter Node.isDir

/-- `Directory.hard_links`: direct HardLink children. -/
def dirHardLinks (n : Node) : List Node :=
  n.subNodes.filter Node.isHardLink

/-- `Directory.get_all_files()`: every File in the subtree (recursive
generator with File constraint). -/
def getAllFiles (n : Node) : List Node :=
  (subNodesRec n).filter Node.isFile

/-- `Directory.get_all_dirs()`: every Directory in the subtree (recursive
generator with Directory constraint); the receiver itself is not yielded. -/
def getAllDirs (n : Node) : List Node :=
  (subNodesRec n).filter Node.isDir

/-- `Directory.total_files_count`: recursive File count plus recursive
SymLink count. -/
def totalFilesCount (n : Node) : Nat :=
  getAllNodesCount Node.isFile n + getAllNodesCount Node.isSymLink n

/-- `Directory.current_dir_files_count`: direct File count plus direct
SymLink count. -/
def currentDirFilesCount (n : Node) : Nat :=
  getNodesCount Node.isFile n + getNodesCount Node.isSymLink n

/-- `Directory.sub_dirs_count`: direct Directory count. -/
def subDirsCount (n : Node) : Nat :=
  getNodesCount Node.isDir n

/-- `Directory.total_sub_dirs_count` exactly as the source computes it:
`get_all_nodes_count(Directory) - get_nodes_count(Directory)`. -/
def totalSubDirsCount (n : Node) : Nat :=
  getAllNodesCount Node.isDir n - getNodesCount Node.isDir n

/-- `Directory.total_hard_links_count`: recursive HardLink count. -/
def totalHardLinksCount (n : Node) : Nat :=
  getAllNodesCount Node.isHardLink n

/-- `Directory.total_symlinks_count`: recursive SymLink count. -/
def totalSymlinksCount (n : Node) : Nat :=
  getAllNodesCount Node.isSymLink n

/-- `Directory.total_entries` exactly as the source computes it:
`len(self._sub_nodes)`. -/
def totalEntries (n : Node) : Nat :=
  n.subNodes.length

/-- `AbstractLeafNode.add_node` raises
`TypeError('Node type ... cannot have sub-nodes!')`;
`AbstractNode.add_node` appends to `_sub_nodes`. -/
def typeName : Node → String
  | .dir _ _ _ _ _ => "Directory"
  | .file _ _ _ _ _ _ => "File"
  | .hardLink _ _ _ _ => "HardLink"
  | .symLink _ _ _ _ _ _ _ => "SymLink"

/-- The TypeError message raised by `AbstractLeafNode.add_node`. -/
def leafAddErrMsg (n : Node) : String :=
  "Node type " ++ typeName n ++ " cannot have sub-nodes!"

/-- `add_node(node)`: a Directory appends the node to `_sub_nodes`; a leaf
raises the TypeError and is left unchanged. -/
def addNode (n : Node) (child : Node) : Except String Node :=
  match n with
  | .dir d nm ow po cs => .ok (.dir d nm ow po (cs ++ [child]))
  | leaf => .error (leafAddErrMsg leaf)

/-! ### `Directory.metrics_by_owners` (src/gen/nodes/node.py lines 284-332) -/

/-- The per-owner record `own_metrics` that `metrics_by_owners` deep-copies
for every possible owner. -/
structure OwnerMetrics where
  own_files_size : Nat
  sub_files_size : Nat
  own_files_count : Nat
  sub_files_count : Nat
  own_dirs_count : Nat
  sub_dirs_count : Nat
deriving Repr, DecidableEq

/-- The zeroed `own_metrics` record. -/
def zeroMetrics : OwnerMetrics :=
  ⟨0, 0, 0, 0, 0, 0⟩

/-- Componentwise addition of metric records (each `+=` in the source adds
to one component; a node's visit adds a fixed increment record). -/
def addOM (a b : OwnerMetrics) : OwnerMetrics :=
  ⟨a.own_files_size + b.own_files_size, a.sub_files_size + b.sub_files_size,
   a.own_files_count + b.own_files_count, a.sub_files_count + b.sub_files_count,
   a.own_dirs_count + b.own_dirs_count, a.sub_dirs_count + b.sub_dirs_count⟩

mutual
/-- The nested `get_sub_dirs(current_dir)` of `metrics_by_owners`: append
the directory itself, then recurse into its `sub_dirs`. -/
def dirsPreorder : Node → List Node
  | .dir d nm ow po cs => .dir d nm ow po cs :: dirsPreorderList cs
  | _ => []

/-- `for sub_dir in current_dir.sub_dirs: get_sub_dirs(sub_dir)` over a
child list: non-directories are skipped. -/
def dirsPreorderList : List Node → List Node
  | [] => []
  | c :: cs => (if c.isDir then dirsPreorder c else []) ++ dirsPreorderList cs
end

/-- One `metrics[key] += ...` group of the source: a dict access that
raises KeyError when `key` is not among the dict's keys, and otherwise
adds the increment record to the stored record. -/
def dictUpdate (keys : List String) (m : String → OwnerMetrics) (k : String)
    (inc : OwnerMetrics) : Option (String → OwnerMetrics) :=
  if k ∈ keys then some (fun x => if x = k then addOM (m x) inc else m x) else none

/-- Increment a direct file/symlink of `self` contributes to its owner:
`own_files_size`, `sub_files_size` by `size`, `own_files_count`,
`sub_files_count` by 1. -/
def fileCredit (f : Node) : OwnerMetrics :=
  ⟨f.sizeAttr, f.sizeAttr, 1, 1, 0, 0⟩

/-- Increment a direct sub-directory contributes to its owner. -/
def ownDirCredit : OwnerMetrics :=
  ⟨0, 0, 0, 0, 1, 0⟩

/-- Increment a subtree directory contributes to its own owner. -/
def subDirCredit : OwnerMetrics :=
  ⟨0, 0, 0, 0, 0, 1⟩

/-- Increment a file/symlink of a subtree directory contributes to its
owner: `sub_files_size` by `size`, `sub_files_count` by 1. -/
def subFileCredit (f : Node) : OwnerMetrics :=
  ⟨0, f.sizeAttr, 0, 1, 0, 0⟩

/-- The sequence of `metrics[...] += ...` updates `metrics_by_owners`
performs, in source order: direct files and symlinks of self, then direct
sub-directories, then every directory collected by `get_sub_dirs`
followed by its direct files and symlinks. -/
def metricsCredits (n : Node) : List (String × OwnerMetrics) :=
  ((dirFiles n ++ dirSymlinks n).map fun f => (f.owner, fileCredit f))
    ++ ((dirSubDirs n).map fun d => (d.owner, ownDirCredit))
    ++ ((dirsPreorderList n.subNodes).flatMap fun sd =>
          (sd.owner, subDirCredit)
            :: ((dirFiles sd ++ dirSymlinks sd).map fun f => (f.owner, subFileCredit f)))

/-- Run the updates in order; the first missing key aborts with the
KeyError (modelled as `none`). -/
def applyCredits (keys : List String) : List (String × OwnerMetrics) →
    (String → OwnerMetrics) → Option (String → OwnerMetrics)
  | [], m => some m
  | c :: cs, m =>
    match dictUpdate keys m c.1 c.2 with
    | some m' => applyCredits keys cs m'
    | none => none

/-- `Directory.metrics_by_owners`: initialize a zeroed record per possible
owner, then accumulate all credits; a lookup of an owner absent from
`possible_owners` raises (None here). The resulting dict is modelled as
its lookup function; its key set is `possible_owners`. -/
def metricsByOwners (n : Node) : Option (String → OwnerMetrics) :=
  applyCredits n.possibleOwners (metricsCredits n) (fun _ => zeroMetrics)

/-- Sum a metric field over the owners of the resulting dict (the dict
iterates each distinct possible owner once, in first-insertion order). -/
def sumOwners (f : OwnerMetrics → Nat) (keys : List String)
    (m : String → OwnerMetrics) : Nat :=
  (keys.dedup.map fun o => f (m o)).sum

/-! ### Structural lemmas about the recursive generator -/

/-- Direct File + SymLink count of a child list (the quantity
`current_dir_files_count` computes from a directory's `_sub_nodes`). -/
def listFilesCount (cs : List Node) : Nat :=
  cs.countP Node.isFile + cs.countP Node.isSymLink

/-! ### Sample trees used as concrete inputs -/

/-- A directory holding one sub-directory that holds two files. -/
def twoFileTree : Node :=
  .dir "/t" "root" "root" ["root"]
    [.dir "/t/root" "sub" "root" ["root"]
      [.file "/t/root/sub" "a.txt" "root" 10 0 0,
       .file "/t/root/sub" "b.txt" "root" 20 0 0]]

/-- A directory with exactly one direct sub-directory and nothing else. -/
def oneSubDirTree : Node :=
  .dir "/t" "r" "root" ["root"] [.dir "/t/r" "s" "root" ["root"] []]

/-- Total increment record a credit list gives to one key. -/
def sumCredits (x : String) : List (String × OwnerMetrics) → OwnerMetrics
  | [] => zeroMetrics
  | c :: cs => if c.1 = x then addOM c.2 (sumCredits x cs) else sumCredits x cs

/-! ### The seeded random stream (random module, seeded in src/gen/main.py)

`main.py` calls `seed(seed_val, version=1)` once; every later draw comes
from that single global generator, so each draw is a pure function of the
seed and the draw position. The exact Mersenne-Twister distribution is
irrelevant to the claims, which depend only on determinism and on range
bounds; a 64-bit LCG supplies the stream. -/

structure Rng where
  state : Nat
deriving Repr

/-- `random.seed(seed_val, version=1)`. -/
def mkRng (seedVal : Nat) : Rng :=
  ⟨(6364136223846793005 * seedVal + 1442695040888963407) % 2 ^ 64⟩

/-- One raw draw from the seeded generator. -/
def Rng.next (r : Rng) : Nat × Rng :=
  let s := (6364136223846793005 * r.state + 1442695040888963407) % 2 ^ 64
  (s / 2 ^ 33, ⟨s⟩)

/-- `random.randint(a, b)`: uniform integer in [a, b] (both ends
included); raises ValueError on an empty range. -/
def randintN (lo hi : Nat) (r : Rng) : Except String (Nat × Rng) :=
  if hi < lo then .error "ValueError: empty range for randrange()"
  else
    let (v, r') := r.next
    .ok (lo + v % (hi - lo + 1), r')

/-- `random.choice(seq)`: uniform element; raises IndexError when the
sequence is empty. -/
def choice {α : Type} (l : List α) (r : Rng) : Except String (α × Rng) :=
  let (v, r') := r.next
  match l.get? (v % l.length) with
  | some a => .ok (a, r')
  | none => .error "IndexError: cannot choose from an empty sequence"

/-- Draw `k` distinct elements without replacement (the selection loop of
`random.sample`). -/
def sampleAux {α : Type} : Nat → List α → Rng → List α × Rng
  | 0, _, r => ([], r)
  | k + 1, l, r =>
    let (v, r') := r.next
    let i := v % l.length
    match l.get? i with
    | some a =>
      let (rest, r'') := sampleAux k (l.eraseIdx i) r'
      (a :: rest, r'')
    | none => ([], r')

/-- `random.sample(population, k)`: raises ValueError when `k` exceeds the
population size. -/
def sample {α : Type} (l : List α) (k : Nat) (r : Rng) :
    Except String (List α × Rng) :=
  if k ≤ l.length then .ok (sampleAux k l r)
  else .error "ValueError: Sample larger than population or is negative"

/-! ### utils/utilits.py helpers -/

/-- The LETTERS alphabet: ascii_letters + digits + JP_LETTERS + CYR_LETTERS. -/
def lettersList : List Char :=
  ("abcdefghijklmnopqrstuvwxyzABCDEFGHIJKLMNOPQRSTUVWXYZ0123456789"
    ++ "世界中に存在するウェブサイトのうち" ++ "ЎBKEПPнroлшдў").toList

/-- The character draws of `name_generator`, left to right. -/
def nameGeneratorAux : Nat → Rng → Except String (List Char × Rng)
  | 0, r => .ok ([], r)
  | k + 1, r => do
    let (c, r) ← choice lettersList r
    let (rest, r) ← nameGeneratorAux k r
    .ok (c :: rest, r)

/-- `name_generator(length)`: join of `length` uniform choices from LETTERS. -/
def nameGenerator (k : Nat) (r : Rng) : Except String (String × Rng) := do
  let (cs, r) ← nameGeneratorAux k r
  .ok (String.mk cs, r)

/-- `get_random_timestamp(start_time)`: subtract
`timedelta(minutes=randint(1,60), hours=randint(1,23), days=randint(0,1825))`
from the reference epoch (modelled in epoch seconds). -/
def getRandomTimestamp (startTime : Int) (r : Rng) :
    Except String (Int × Rng) := do
  let (mins, r) ← randintN 1 60 r
  let (hours, r) ← randintN 1 23 r
  let (days, r) ← randintN 0 1825 r
  .ok (startTime - ((mins : Int) * 60 + (hours : Int) * 3600 + (days : Int) * 86400), r)

/-- `make_symlink`'s effect on the SymLink object: the target is already
snapshotted flat; the OS-reported link size plus the 2-byte overhead is
written to `size`, and the chosen owner is written to `owner` (the chown
and utime calls touch the OS object only). -/
def makeSymlink (sl : Node) (ow : String) (osSize : Nat) : Node :=
  match sl with
  | .symLink d nm _ tgt _ a m => .symLink d nm ow tgt (osSize + 2) a m
  | n => n

/-! ### TreeGenerator2 (src/gen/tree_gen2.py) -/

def SIZE_SMALL : Nat := 1024 * 100

def SIZE_MEDIUM : Nat := SIZE_SMALL * 1024

def SIZE_LARGE : Nat := SIZE_MEDIUM * 1024

def AUDIO_EXTENSIONS : List String := ["aac", "mp3", "oga", "wav"]

def VIDEO_EXTENSIONS : List String := ["avi", "mpeg", "3gp", "webm"]

def DOCS_EXTENSIONS : List String := ["doc", "docx", "txt", "pdf", "rtf", "ppt"]

def PICTURES_EXTENSIONS : List String := ["bmp", "gif", "jpeg", "png", "tif"]

def APPS_EXTENSIONS : List String := ["exe", "bat", "sh"]

def SCRIPTS_EXTENSIONS : List String := ["py", "js", "php", "tcl"]

def SRC_EXTENSIONS : List String := ["c", "h", "cpp"]

def BAD_EXTENSIONS : List String := ["", "a5t3", "ss", "000", "Pнr", "世界中"]

def NAME_LENGTH : Nat := 4

/-- The insertion-ordered keys of the `type` dict in `_gen_file_params`. -/
def typeKeys : List String :=
  ["audio", "video", "txt", "img", "app", "script", "src", "bad"]

/-- The extension tuple stored under each type key. -/
def extListOf : String → List String
  | "audio" => AUDIO_EXTENSIONS
  | "video" => VIDEO_EXTENSIONS
  | "txt" => DOCS_EXTENSIONS
  | "img" => PICTURES_EXTENSIONS
  | "app" => APPS_EXTENSIONS
  | "script" => SCRIPTS_EXTENSIONS
  | "src" => SRC_EXTENSIONS
  | "bad" => BAD_EXTENSIONS
  | _ => []

/-- The `size` dict of `_gen_file_params`; `.get` on an unknown class
yields None. -/
def sizeOfClass : String → Option Nat
  | "large" => some SIZE_LARGE
  | "medium" => some SIZE_MEDIUM
  | "small" => some SIZE_SMALL
  | _ => none

/-- The constructor arguments of TreeGenerator2 (main.py wiring). -/
structure GenConfig where
  name : String
  dest : String
  treeDepth : Nat
  owners : List String
  fileSizes : List String
  dirsCount : Nat
  minDirsCount : Nat
  maxDirsCount : Nat
  filesCount : Nat
  minFilesCount : Nat
  maxFilesCount : Nat
  hardLinksCount : Nat
  defaultTime : Int
  symlinksCount : Nat
  random : Bool
deriving Repr

/-- `self.name_length = 2 if self.tree_depth >= 50 else NAME_LENGTH`. -/
def nameLength (cfg : GenConfig) : Nat :=
  if cfg.treeDepth ≥ 50 then 2 else NAME_LENGTH

/-- `get_node_counts`: fixed counts, or two fresh `randint` draws in
random mode; returned as (dirs_count, files_count). -/
def getNodeCounts (cfg : GenConfig) (r : Rng) :
    Except String ((Nat × Nat) × Rng) :=
  if cfg.random then do
    let (dc, r) ← randintN cfg.minDirsCount cfg.maxDirsCount r
    let (fc, r) ← randintN cfg.minFilesCount cfg.maxFilesCount r
    .ok ((dc, fc), r)
  else .ok ((cfg.dirsCount, cfg.filesCount), r)

/-- `get_owners`: `sample(self.owners, randint(1, len(self.owners)))`. -/
def getOwnersCfg (cfg : GenConfig) (r : Rng) :
    Except String (List String × Rng) := do
  let (k, r) ← randintN 1 cfg.owners.length r
  sample cfg.owners k r

/-- `_gen_file_params`: the jitter bounds `int(size * 0.7)` and
`int(size * 1.3)` are exact for the three base byte counts (all three
float products are integral and round exactly), so they are written
`size * 7 / 10` and `size * 13 / 10`. Returns (final_size, file_type). -/
def genFileParams (fileSizes : List String) (r : Rng) :
    Except String ((Nat × String) × Rng) := do
  let (ftype, r) ← choice typeKeys r
  let (fext, r) ← choice (extListOf ftype) r
  let (sname, r) ← choice fileSizes r
  match sizeOfClass sname with
  | none => .error "TypeError: unsupported operand type(s)"
  | some base => do
    let (finalSize, r) ← randintN (base * 7 / 10) (base * 13 / 10) r
    .ok ((finalSize, fext), r)

/-- Fuel bound standing in for the unbounded sibling-name-collision
`while` loops (collision regeneration; exhausting the fuel models the loop
never finding a fresh name, which no Python run returns from either). -/
def NAME_FUEL : Nat := 500

/-- The `while file_name in [...]` loop of `create_files_at_level`: on a
collision both the file params and the name are regenerated. -/
def regenFileName (cfg : GenConfig) :
    Nat → (Nat × String) → String → List String → Rng →
    Except String (((Nat × String) × String) × Rng)
  | 0, _, _, _, _ => .error "collision loop did not terminate"
  | fuel + 1, p, fname, existing, r =>
    if fname ∈ existing then do
      let (p', r) ← genFileParams cfg.fileSizes r
      let (nm, r) ← nameGenerator (nameLength cfg) r
      regenFileName cfg fuel p' ("F" ++ nm ++ "." ++ p'.2) existing r
    else .ok ((p, fname), r)

/-- One iteration of the `create_files_at_level` loop body: params, owner,
name (with collision regeneration), timestamps, then the File node. -/
def createOneFile (cfg : GenConfig) (dirPath : String) (existing : List String)
    (r : Rng) : Except String (Node × Rng) := do
  let (p, r) ← genFileParams cfg.fileSizes r
  let (ownersLvl, r) ← getOwnersCfg cfg r
  let (fowner, r) ← choice ownersLvl r
  let (nm, r) ← nameGenerator (nameLength cfg) r
  let (pn, r) ← regenFileName cfg NAME_FUEL p ("F" ++ nm ++ "." ++ p.2) existing r
  let (ta, r) ← getRandomTimestamp cfg.defaultTime r
  let (tm, r) ← getRandomTimestamp cfg.defaultTime r
  .ok (Node.file dirPath pn.2 fowner pn.1.1 ta tm, r)

/-- `create_files_at_level(current_dir, fls_count)`: append `count` fresh
File nodes; the collision list is the current file-name set of the
directory (the files appended so far — each directory is populated
exactly once). -/
def createFilesAtLevel (cfg : GenConfig) (dirPath : String) :
    Nat → List Node → Rng → Except String (List Node × Rng)
  | 0, acc, r => .ok (acc, r)
  | k + 1, acc, r => do
    let (f, r) ← createOneFile cfg dirPath (acc.map Node.name) r
    createFilesAtLevel cfg dirPath k (acc ++ [f]) r

/-- The `while dir_name in [...]` loop of `create_dirs_at_level`: the
regenerated candidate drops the `D` prefix, exactly as in the source. -/
def regenDirName (cfg : GenConfig) :
    Nat → String → List String → Rng → Except String (String × Rng)
  | 0, _, _, _ => .error "collision loop did not terminate"
  | fuel + 1, nm, existing, r =>
    if nm ∈ existing then do
      let (nm', r) ← nameGenerator (nameLength cfg) r
      regenDirName cfg fuel nm' existing r
    else .ok (nm, r)

/-- `create_dirs_at_level(current_dir, drs_count, executor)`: append
`count` fresh empty Directory nodes (owner drawn per directory, name `D`
plus a generated suffix, `possible_owners` is the full configured owner
set); the OS mkdir dispatch mutates no logical state. -/
def createDirShells (cfg : GenConfig) (dirPath : String) :
    Nat → List Node → Rng → Except String (List Node × Rng)
  | 0, acc, r => .ok (acc, r)
  | k + 1, acc, r => do
    let (ownersLvl, r) ← getOwnersCfg cfg r
    let (downer, r) ← choice ownersLvl r
    let (nm, r) ← nameGenerator (nameLength cfg) r
    let (dname, r) ← regenDirName cfg NAME_FUEL ("D" ++ nm) (acc.map Node.name) r
    createDirShells cfg dirPath k
      (acc ++ [Node.dir dirPath dname downer cfg.owners []]) r

/-- One pass of the main level loop over the current frontier: per
directory (in frontier order) draw its node counts and run `create_level`
(child directories first, then files). Each entry keeps the parent shell,
its new child shells and its files. -/
def levelStep (cfg : GenConfig) :
    List Node → Rng → Except String (List (Node × List Node × List Node) × Rng)
  | [], r => .ok ([], r)
  | d :: ds, r => do
    let (counts, r) ← getNodeCounts cfg r
    let (subs, r) ← createDirShells cfg (Node.fullPath d) counts.1 [] r
    let (fs, r) ← createFilesAtLevel cfg (Node.fullPath d) counts.2 [] r
    let (rest, r) ← levelStep cfg ds r
    .ok ((d, subs, fs) :: rest, r)

/-- Reattach the recursively built sub-directories to their parents: each
parent holds its directories first, then its files, exactly the
`_sub_nodes` insertion order of `create_level`. -/
def reattach : List (Node × List Node × List Node) → List Node → List Node
  | [], _ => []
  | (d, subs, fs) :: rest, built =>
    Node.dir d.dest d.name d.owner d.possibleOwners
        (built.take subs.length ++ fs)
      :: reattach rest (built.drop subs.length)

/-- The final file-population pass (`for sub_dr in current_dirs_level`
after the main loop): counts are drawn again and only the files count is
used; the frontier directories receive no further sub-directories. -/
def finalPass (cfg : GenConfig) :
    List Node → Rng → Except String (List Node × Rng)
  | [], r => .ok ([], r)
  | d :: ds, r => do
    let (counts, r) ← getNodeCounts cfg r
    let (fs, r) ← createFilesAtLevel cfg (Node.fullPath d) counts.2 [] r
    let (rest, r) ← finalPass cfg ds r
    .ok (Node.dir d.dest d.name d.owner d.possibleOwners (d.subNodes ++ fs) :: rest, r)

/-- `for _ in range(self.tree_depth - 1)` plus the final file pass,
breadth-first exactly as the source (the frontier is processed in order;
the next frontier is the concatenation of the new sub-directories).
Returns the fully built trees of the given frontier shells. -/
def expandLevels (cfg : GenConfig) :
    Nat → List Node → Rng → Except String (List Node × Rng)
  | 0, frontier, r => finalPass cfg frontier r
  | k + 1, frontier, r => do
    let (entries, r) ← levelStep cfg frontier r
    let (built, r) ← expandLevels cfg k (entries.flatMap fun e => e.2.1) r
    .ok (reattach entries built, r)

/-- The logical-tree part of `generate_tree`: start params, root owner,
root `create_level`, the depth loop, the final file pass. The concurrent
`create_dir`/`create_file` OS dispatches mutate no logical state. -/
def generateLogicalTree (cfg : GenConfig) (r : Rng) :
    Except String (Node × Rng) := do
  let (startCounts, r) ← getNodeCounts cfg r
  let (ownersLvl, r) ← getOwnersCfg cfg r
  let (rootOwner, r) ← choice ownersLvl r
  let rootPath := cfg.dest ++ "/" ++ cfg.name
  let (subs, r) ← createDirShells cfg rootPath startCounts.1 [] r
  let (fs, r) ← createFilesAtLevel cfg rootPath startCounts.2 [] r
  let (built, r) ← expandLevels cfg (cfg.treeDepth - 1) subs r
  .ok (Node.dir cfg.dest cfg.name rootOwner cfg.owners (built ++ fs), r)

/-- Python list subscription: `lst[i]` raises IndexError out of range. -/
def listAccess {α : Type} (l : List α) (i : Nat) : Except String α :=
  match l.get? i with
  | some a => .ok a
  | none => .error "IndexError: list index out of range"

mutual
/-- Append a child to the directory at preorder index `i` of
`get_all_dirs` (the live reference `target_dir.add_node(...)` mutates the
tree at that directory). Returns the updated node and, when the index was
not consumed inside, the remaining index. -/
def insertDirIdx : Node → Nat → Node → Node × Option Nat
  | .dir d nm ow po cs, i, link =>
    if i = 0 then (.dir d nm ow po (cs ++ [link]), none)
    else
      match insertDirIdxList cs (i - 1) link with
      | (cs', res) => (.dir d nm ow po cs', res)
  | n, i, _ => (n, some i)

/-- Walk a child list in `get_all_dirs` preorder, consuming the index
only at directories. -/
def insertDirIdxList : List Node → Nat → Node → List Node × Option Nat
  | [], i, _ => ([], some i)
  | c :: cs, i, link =>
    if c.isDir then
      match insertDirIdx c i link with
      | (c', none) => (c' :: cs, none)
      | (c', some i') =>
        match insertDirIdxList cs i' link with
        | (cs', res) => (c' :: cs', res)
    else
      match insertDirIdxList cs i link with
      | (cs', res) => (c :: cs', res)
end

/-- `target_dir.add_node(child)` where `target_dir = dirs[i]` and `dirs`
is the `get_all_dirs()` snapshot of the tree. -/
def addChildAtDirIndex (t : Node) (i : Nat) (link : Node) : Node :=
  match t with
  | .dir d nm ow po cs => .dir d nm ow po (insertDirIdxList cs i link).1
  | n => n

/-- The `for num in range(count)` loop of `create_hard_links_in_tree`:
note the inclusive upper bounds `randint(0, len(dirs))` and
`randint(1, len(files))` taken verbatim from the source — a draw equal to
the list length subscripts past the end. -/
def hardLinksLoop (dirsSnap filesSnap : List Node) :
    Nat → Nat → Node → Rng → Except String (Node × Rng)
  | 0, _, tree, r => .ok (tree, r)
  | k + 1, num, tree, r => do
    let (di, r) ← randintN 0 dirsSnap.length r
    let targetDir ← listAccess dirsSnap di
    let (fi, r) ← randintN 1 filesSnap.length r
    let targetFile ← listAccess filesSnap fi
    let hl := Node.hardLink (Node.fullPath targetDir)
      ("HL" ++ toString num ++ "_" ++ targetFile.name) targetFile.owner
      ⟨targetFile.name, targetFile.dest, targetFile.owner⟩
    hardLinksLoop dirsSnap filesSnap k (num + 1) (addChildAtDirIndex tree di hl) r

/-- `create_hard_links_in_tree(count, executor, root.get_all_dirs(),
root.get_all_files())`: the inventory lists are computed once. -/
def createHardLinksInTree (count : Nat) (tree : Node) (r : Rng) :
    Except String (Node × Rng) :=
  hardLinksLoop (getAllDirs tree) (getAllFiles tree) count 0 tree r

/-- The `for num in range(count)` loop of `create_symlinks_in_tree`: the
conditional's coin `randint(0, 1)` is drawn before the chosen branch's
index draw; the SymLink node is inserted with `owner=''` and `size=0`,
and the post-insertion `choice(self.get_owners())` draw feeds only the OS
materialization (`make_symlink`). -/
def symLinksLoop (cfg : GenConfig) (dirsSnap filesSnap : List Node) :
    Nat → Nat → Node → Rng → Except String (Node × Rng)
  | 0, _, tree, r => .ok (tree, r)
  | k + 1, num, tree, r => do
    let (di, r) ← randintN 0 dirsSnap.length r
    let targetDir ← listAccess dirsSnap di
    let (coin, r) ← randintN 0 1 r
    let (tgt, r) ←
      if coin ≠ 0 then do
        let (fi, r) ← randintN 1 filesSnap.length r
        let tf ← listAccess filesSnap fi
        pure (tf, r)
      else do
        let (di2, r) ← randintN 0 dirsSnap.length r
        let td2 ← listAccess dirsSnap di2
        pure (td2, r)
    let (ta, r) ← getRandomTimestamp cfg.defaultTime r
    let (tm, r) ← getRandomTimestamp cfg.defaultTime r
    let sl := Node.symLink (Node.fullPath targetDir)
      ("SL" ++ toString num ++ "_" ++ tgt.name) ""
      ⟨tgt.name, tgt.dest, tgt.owner⟩ 0 ta tm
    let tree := addChildAtDirIndex tree di sl
    let (ownersLvl, r) ← getOwnersCfg cfg r
    let (_, r) ← choice ownersLvl r
    symLinksLoop cfg dirsSnap filesSnap k (num + 1) tree r

/-- `create_symlinks_in_tree(count, executor, root.get_all_dirs(),
root.get_all_files())`: the inventories are re-evaluated at this call
site (hard links are neither directories nor Files, so they match the
first snapshot). -/
def createSymLinksInTree (cfg : GenConfig) (tree : Node) (r : Rng) :
    Except String (Node × Rng) :=
  symLinksLoop cfg (getAllDirs tree) (getAllFiles tree) cfg.symlinksCount 0 tree r

/-- `TreeGenerator2.generate_tree`: logical growth, the (logically inert)
file materialization sweep, then the hard-link and symlink phases. -/
def generateTree (cfg : GenConfig) (r : Rng) : Except String (Node × Rng) := do
  let (tree, r) ← generateLogicalTree cfg r
  let (tree, r) ← createHardLinksInTree cfg.hardLinksCount tree r
  createSymLinksInTree cfg tree r

/-! ### Path chunking (create_file lines 181-217 / create_dir lines
219-243 of tree_gen2.py; the two chunking bodies are identical)

A filesystem location is its list of name segments from the root. An
absolute path string `/s1/.../sn` splits on `/` into `"" :: segs`; after
the source replaces element 0 with `'/'`, `os.path.join` of a chunk whose
first element is `'/'` yields an absolute path, and of any other chunk a
relative one. `os.chdir` to an absolute path replaces the working
directory, to a relative path appends to it. -/

abbrev Loc := List String

/-- An `os.path.join(*chunk)` result: absolute or relative. -/
inductive PathArg where
  | abs (segs : List String)
  | rel (segs : List String)

/-- `os.chdir` semantics on a location. -/
def chdirM (cwd : Loc) : PathArg → Loc
  | .abs s => s
  | .rel s => cwd ++ s

/-- `os.path.join(*l)` of a split-segment list: absolute exactly when the
source placed the `'/'` marker first. -/
def pyJoin (l : List String) : PathArg :=
  match l with
  | [] => .rel []
  | a :: rest => if a = "/" then .abs rest else .rel (a :: rest)

/-- The `while len(dirs_list) > 50` loop: peel chunks of 50 segments,
keep the rest. Returns (chunks, remainder). -/
def chunkLoop (l : List String) : List (List String) × List String :=
  if _h : l.length > 50 then
    let res := chunkLoop (l.drop 50)
    (l.take 50 :: res.1, res.2)
  else ([], l)
termination_by l.length
decreasing_by simp [List.length_drop]; omega

/-- The chunked/unchunked creation of `create_dir` (and identically the
body of `create_file`): `segs` are the content segments of the absolute
target path (its split is `"" :: segs`). Returns the location at which
the OS operation runs and the working directory afterwards
(`chdir(START_PATH)` runs in both branches). -/
def chunkedCreate (startPath cwd0 : Loc) (segs : List String) : Loc × Loc :=
  if ("" :: segs).length > 100 then
    (chdirM
      ((chunkLoop ("/" :: segs)).1.foldl (fun c ch => chdirM c (pyJoin ch)) cwd0)
      (pyJoin (chunkLoop ("/" :: segs)).2),
     startPath)
  else
    (chdirM cwd0 (.abs segs), startPath)

/-- What an unchunked creation does: resolve the absolute path directly
(no working-directory hops), then return to the generator's base context. -/
def unchunkedCreate (startPath cwd0 : Loc) (segs : List String) : Loc × Loc :=
  (chdirM cwd0 (.abs segs), startPath)

/-! ### Logical-tree isomorphism (claim C1)

Same shape with the same names, owners, timestamps and sizes at every
corresponding position. -/

mutual
/-- Structural isomorphism of logical trees: corresponding nodes have the
same kind, name, owner, size and timestamps, and isomorphic child lists. -/
def treeIsoB : Node → Node → Bool
  | .dir _ n1 o1 _ cs1, .dir _ n2 o2 _ cs2 =>
    n1 == n2 && o1 == o2 && treeIsoListB cs1 cs2
  | .file _ n1 o1 s1 a1 m1, .file _ n2 o2 s2 a2 m2 =>
    n1 == n2 && o1 == o2 && s1 == s2 && a1 == a2 && m1 == m2
  | .hardLink _ n1 o1 _, .hardLink _ n2 o2 _ =>
    n1 == n2 && o1 == o2
  | .symLink _ n1 o1 _ s1 a1 m1, .symLink _ n2 o2 _ s2 a2 m2 =>
    n1 == n2 && o1 == o2 && s1 == s2 && a1 == a2 && m1 == m2
  | _, _ => false

/-- Positionwise isomorphism of child lists. -/
def treeIsoListB : List Node → List Node → Bool
  | [], [] => true
  | a :: l1, b :: l2 => treeIsoB a b && treeIsoListB l1 l2
  | _, _ => false
end

/-- The reproducibility scenario configuration used as a concrete run. -/
def c1cfg : GenConfig :=
  { name := "Test_tree", dest := "/tmp", treeDepth := 1, owners := ["root"],
    fileSizes := ["small"], dirsCount := 1, minDirsCount := 0, maxDirsCount := 0,
    filesCount := 1, minFilesCount := 0, maxFilesCount := 0, hardLinksCount := 0,
    defaultTime := 1700000000, symlinksCount := 0, random := false }

/-- The tree and final stream state of the concrete run (seed 42). -/
def c1res : Node × Rng :=
  match generateTree c1cfg (mkRng 42) with
  | .ok p => p
  | .error _ => (Node.file "" "" "" 0 0 0, ⟨0⟩)

/-- A tree whose inventory holds exactly one directory and one file. -/
def c7tree : Node :=
  Node.dir "/t" "r" "root" ["root"]
    [Node.dir "/t/r" "s" "root" ["root"] [Node.file "/t/r/s" "a.txt" "root" 10 0 0]]

/-- The size-claim configuration used as a concrete run (seed 7). -/
def c8cfg : GenConfig :=
  { name := "Test_tree", dest := "/tmp", treeDepth := 1, owners := ["root"],
    fileSizes := ["small"], dirsCount := 1, minDirsCount := 0, maxDirsCount := 0,
    filesCount := 1, minFilesCount := 0, maxFilesCount := 0, hardLinksCount := 0,
    defaultTime := 1700000000, symlinksCount := 0, random := false }

/-- The tree of the concrete size-claim run. -/
def c8res : Node × Rng :=
  match generateTree c8cfg (mkRng 7) with
  | .ok p => p
  | .error _ => (Node.file "" "" "" 0 0 0, ⟨0⟩)

/-- A concrete `_gen_file_params` draw under `["small"]`. -/
def c8par : (Nat × String) × Rng :=
  match genFileParams ["small"] ⟨123⟩ with
  | .ok p => p
  | .error _ => ((0, ""), ⟨0⟩)

/-- The symlink-claim configuration used as a concrete run (seed 0):
two levels, one symlink, no hard links. -/
def c10cfg : GenConfig :=
  { name := "Test_tree", dest := "/tmp", treeDepth := 2,
    owners := ["root", "admin"], fileSizes := ["small"], dirsCount := 2,
    minDirsCount := 0, maxDirsCount := 0, filesCount := 2, minFilesCount := 0,
    maxFilesCount := 0, hardLinksCount := 0, defaultTime := 1700000000,
    symlinksCount := 1, random := false }

/-- The tree of the concrete symlink run. -/
def c10res : Node × Rng :=
  match generateTree c10cfg (mkRng 0) with
  | .ok p => p
  | .error _ => (Node.file "" "" "" 0 0 0, ⟨0⟩)

/-- A freshly inserted symlink node (owner still empty). -/
def c10sl : Node :=
  Node.symLink "/t/d" "SL0_x" "" ⟨"x", "/t", "root"⟩ 0 0 0

/-- A directory holding that symlink, with owner set ["root"]. -/
def c10dir : Node :=
  Node.dir "/t" "d" "root" ["root"] [c10sl]

theorem currentDirFilesCount_eq_listFilesCount (n : Node) :
    currentDirFilesCount n = listFilesCount n.subNodes := by
  simp [currentDirFilesCount, getNodesCount, listFilesCount,
    List.countP_eq_length_filter]

theorem totalFilesCount_eq_listFilesCount (n : Node) :
    totalFilesCount n = listFilesCount (subNodesRec n) := by
  simp [totalFilesCount, getAllNodesCount, listFilesCount,
    List.countP_eq_length_filter]

theorem subNodesRec_of_not_dir {n : Node} (h : n.isDir = false) :
    subNodesRec n = [] := by
  cases n <;> simp_all [Node.isDir, subNodesRec]

theorem listFilesCount_append (a b : List Node) :
    listFilesCount (a ++ b) = listFilesCount a + listFilesCount b := by
  simp [listFilesCount, List.countP_append]; omega

theorem listFilesCount_leaf_dir {c : Node} (h : c.isDir = true) :
    listFilesCount [c] = 0 := by
  cases c <;> simp_all [Node.isDir, listFilesCount, List.countP_cons,
    List.countP_nil, Node.isFile, Node.isSymLink]

mutual
theorem listFilesCount_subNodesRec (n : Node) :
    listFilesCount (subNodesRec n) =
      ((dirsPreorder n).map fun d => listFilesCount d.subNodes).sum := by
  cases n with
  | dir d nm ow po cs =>
    simpa [subNodesRec, dirsPreorder, Node.subNodes] using
      listFilesCount_subNodesRecList cs
  | file d nm ow s a m => simp [subNodesRec, dirsPreorder, listFilesCount]
  | hardLink d nm ow t => simp [subNodesRec, dirsPreorder, listFilesCount]
  | symLink d nm ow t s a m => simp [subNodesRec, dirsPreorder, listFilesCount]

theorem listFilesCount_subNodesRecList (cs : List Node) :
    listFilesCount (subNodesRecList cs) =
      listFilesCount cs +
        ((dirsPreorderList cs).map fun d => listFilesCount d.subNodes).sum := by
  cases cs with
  | nil => simp [subNodesRecList, dirsPreorderList, listFilesCount]
  | cons c cs =>
    have hc := listFilesCount_subNodesRec c
    have hcs := listFilesCount_subNodesRecList cs
    by_cases hd : c.isDir = true
    · have h1 : listFilesCount [c] = 0 := listFilesCount_leaf_dir hd
      simp only [subNodesRecList, dirsPreorderList, hd, if_pos]
      rw [show (c :: (subNodesRec c ++ subNodesRecList cs)) =
            [c] ++ (subNodesRec c ++ subNodesRecList cs) from rfl,
        listFilesCount_append, listFilesCount_append, h1,
        show (c :: cs) = [c] ++ cs from rfl, listFilesCount_append, h1,
        List.map_append, List.sum_append, hc, hcs]
      omega
    · have hrec : subNodesRec c = [] :=
        subNodesRec_of_not_dir (by simpa using hd)
      simp only [subNodesRecList, dirsPreorderList,
        Bool.not_eq_true] at *
      rw [show (c :: (subNodesRec c ++ subNodesRecList cs)) =
            [c] ++ (subNodesRec c ++ subNodesRecList cs) from rfl,
        listFilesCount_append, listFilesCount_append, hrec,
        show (c :: cs) = [c] ++ cs from rfl, listFilesCount_append, hd,
        if_neg (by simp), hcs]
      simp [listFilesCount]
      omega
end

theorem filter_isDir_subNodesRecList (cs : List Node) :
    (subNodesRecList cs).filter Node.isDir = dirsPreorderList cs := by
  cases cs with
  | nil => simp [subNodesRecList, dirsPreorderList]
  | cons c cs =>
    have ih := filter_isDir_subNodesRecList cs
    by_cases hd : c.isDir = true
    · cases c with
      | dir d nm ow po cc =>
        have ihc := filter_isDir_subNodesRecList cc
        simp [subNodesRecList, dirsPreorderList, subNodesRec, dirsPreorder,
          List.filter_append, ih, ihc, Node.isDir, Node.subNodes]
      | file d nm ow s a m => simp [Node.isDir] at hd
      | hardLink d nm ow t => simp [Node.isDir] at hd
      | symLink d nm ow t s a m => simp [Node.isDir] at hd
    · have hrec : subNodesRec c = [] :=
        subNodesRec_of_not_dir (by simpa using hd)
      simp [subNodesRecList, dirsPreorderList, List.filter_append, ih, hrec, hd]

theorem getAllDirs_eq_dirsPreorderList (n : Node) :
    getAllDirs n = dirsPreorderList n.subNodes := by
  cases n with
  | dir d nm ow po cs =>
    simpa [getAllDirs, subNodesRec, Node.subNodes] using
      filter_isDir_subNodesRecList cs
  | file d nm ow s a m => simp [getAllDirs, subNodesRec, Node.subNodes, dirsPreorderList]
  | hardLink d nm ow t => simp [getAllDirs, subNodesRec, Node.subNodes, dirsPreorderList]
  | symLink d nm ow t s a m => simp [getAllDirs, subNodesRec, Node.subNodes, dirsPreorderList]

/-- Shared decomposition: the recursive File+SymLink count of a subtree is
the direct count of the root plus the direct counts of every directory in
the subtree. -/
theorem totalFiles_decomposition (n : Node) :
    totalFilesCount n =
      currentDirFilesCount n +
        ((getAllDirs n).map currentDirFilesCount).sum := by
  rw [totalFilesCount_eq_listFilesCount, currentDirFilesCount_eq_listFilesCount,
    getAllDirs_eq_dirsPreorderList]
  have hmap : (dirsPreorderList n.subNodes).map currentDirFilesCount =
      (dirsPreorderList n.subNodes).map fun d => listFilesCount d.subNodes := by
    apply List.map_congr_left
    intro d _
    exact currentDirFilesCount_eq_listFilesCount d
  rw [hmap]
  cases n with
  | dir d nm ow po cs =>
    simpa [subNodesRec, Node.subNodes] using listFilesCount_subNodesRecList cs
  | file d nm ow s a m => simp [subNodesRec, Node.subNodes, dirsPreorderList, listFilesCount]
  | hardLink d nm ow t => simp [subNodesRec, Node.subNodes, dirsPreorderList, listFilesCount]
  | symLink d nm ow t s a m => simp [subNodesRec, Node.subNodes, dirsPreorderList, listFilesCount]

/-- C2: for every directory root, `total_files_count(root)` equals the sum
of `current_dir_files_count(d)` over every directory d in the subtree
including root itself, where the direct count is direct Files plus direct
SymLinks and the total counts Files and SymLinks anywhere in the subtree. -/
theorem total_files_count_is_sum_over_subtree_dirs (n : Node) :
    totalFilesCount n = ((n :: getAllDirs n).map currentDirFilesCount).sum := by
  simpa using totalFiles_decomposition n

/-- C3: calling `add_node` on a leaf node (File, HardLink, SymLink) always
fails with the TypeError contract message, never silently succeeds, and the
leaf's child list (hence the tree) is unchanged — it is the constant empty
list. -/
theorem leaf_add_node_always_fails (n c : Node) (h : n.isLeaf = true) :
    addNode n c = .error (leafAddErrMsg n) ∧ n.subNodes = [] := by
  cases n <;> simp_all [Node.isLeaf, Node.isFile, Node.isHardLink,
    Node.isSymLink, addNode, Node.subNodes]

/-- Concrete check of `leaf_add_node_always_fails` on a File node. -/
theorem leaf_add_node_always_fails_checked :
    (Node.file "/t" "f.txt" "root" 7 0 0).isLeaf = true ∧
      (addNode (Node.file "/t" "f.txt" "root" 7 0 0) oneSubDirTree =
          .error (leafAddErrMsg (Node.file "/t" "f.txt" "root" 7 0 0)) ∧
        (Node.file "/t" "f.txt" "root" 7 0 0).subNodes = []) :=
  ⟨rfl, leaf_add_node_always_fails (Node.file "/t" "f.txt" "root" 7 0 0)
    oneSubDirTree rfl⟩

/-- C5: the claimed identity
`total_entries = total_files_count + total_hard_links_count + total_sub_dirs_count`
fails on a directory holding one sub-directory with two files:
`total_entries` is `len(self._sub_nodes)` = 1 (direct children only), while
the claimed sum of subtree totals is 2. -/
theorem total_entries_counts_only_direct_children :
    totalEntries twoFileTree = 1 ∧
      totalFilesCount twoFileTree + totalHardLinksCount twoFileTree +
        totalSubDirsCount twoFileTree = 2 := by
  decide

/-- C6: `total_sub_dirs_count` subtracts the direct Directory count from
the all-descendant count, so on a directory with exactly one direct
sub-directory it returns 0 although the subtree holds 1 descendant
directory (which `sub_dirs_count` correctly reports as a direct child). -/
theorem total_sub_dirs_count_omits_direct_children :
    totalSubDirsCount oneSubDirTree = 0 ∧
      getAllNodesCount Node.isDir oneSubDirTree = 1 ∧
      subDirsCount oneSubDirTree = 1 := by
  decide

/-! ### Membership lemmas for the recursive generator -/

theorem mem_subNodesRecList_of_mem {x : Node} :
    ∀ {cs : List Node}, x ∈ cs → x ∈ subNodesRecList cs := by
  intro cs h
  induction cs with
  | nil => cases h
  | cons c cs ih =>
    rcases List.mem_cons.mp h with rfl | h'
    · exact List.mem_cons_self _ _
    · exact List.mem_cons_of_mem _ (List.mem_append_right _ (ih h'))

theorem mem_subNodesRec_of_mem_subNodes {x : Node} {n : Node}
    (h : x ∈ n.subNodes) : x ∈ subNodesRec n := by
  cases n with
  | dir d nm ow po cs =>
    simpa [subNodesRec] using mem_subNodesRecList_of_mem (by simpa [Node.subNodes] using h)
  | file d nm ow s a m => simp [Node.subNodes] at h
  | hardLink d nm ow t => simp [Node.subNodes] at h
  | symLink d nm ow t s a m => simp [Node.subNodes] at h

mutual
theorem mem_subNodesRec_trans {x y : Node} (n : Node)
    (hy : y ∈ subNodesRec n) (hx : x ∈ subNodesRec y) : x ∈ subNodesRec n := by
  cases n with
  | dir d nm ow po cs =>
    simp only [subNodesRec] at *
    exact mem_subNodesRecList_trans cs hy hx
  | file d nm ow s a m => simp [subNodesRec] at hy
  | hardLink d nm ow t => simp [subNodesRec] at hy
  | symLink d nm ow t s a m => simp [subNodesRec] at hy

theorem mem_subNodesRecList_trans {x y : Node} (cs : List Node)
    (hy : y ∈ subNodesRecList cs) (hx : x ∈ subNodesRec y) :
    x ∈ subNodesRecList cs := by
  cases cs with
  | nil => simp [subNodesRecList] at hy
  | cons c cs =>
    simp only [subNodesRecList, List.mem_cons, List.mem_append] at hy ⊢
    rcases hy with rfl | hy' | hy'
    · exact Or.inr (Or.inl hx)
    · exact Or.inr (Or.inl (mem_subNodesRec_trans c hy' hx))
    · exact Or.inr (Or.inr (mem_subNodesRecList_trans cs hy' hx))
end

/-! ### Algebra of the per-owner metric records -/

theorem addOM_assoc (a b c : OwnerMetrics) :
    addOM (addOM a b) c = addOM a (addOM b c) := by
  simp [addOM, Nat.add_assoc]

theorem addOM_zero_left (b : OwnerMetrics) : addOM zeroMetrics b = b := by
  simp [addOM, zeroMetrics]

theorem addOM_zero_right (a : OwnerMetrics) : addOM a zeroMetrics = a := by
  simp [addOM, zeroMetrics]

theorem applyCredits_some {keys : List String} :
    ∀ {cs : List (String × OwnerMetrics)} {m : String → OwnerMetrics},
      (∀ c ∈ cs, c.1 ∈ keys) →
      ∃ m', applyCredits keys cs m = some m' := by
  intro cs
  induction cs with
  | nil => exact fun _ => ⟨_, rfl⟩
  | cons c cs ih =>
    intro m h
    have hc : c.1 ∈ keys := h c (List.mem_cons_self _ _)
    have ⟨m', hm'⟩ := ih (m := fun x => if x = c.1 then addOM (m x) c.2 else m x)
      (fun d hd => h d (List.mem_cons_of_mem _ hd))
    exact ⟨m', by simp [applyCredits, dictUpdate, hc, hm']⟩

theorem applyCredits_none {keys : List String} :
    ∀ {cs : List (String × OwnerMetrics)} {m : String → OwnerMetrics} {c},
      c ∈ cs → c.1 ∉ keys → applyCredits keys cs m = none := by
  intro cs
  induction cs with
  | nil => intro m c h; cases h
  | cons d cs ih =>
    intro m c h hc
    rcases List.mem_cons.mp h with rfl | h'
    · simp [applyCredits, dictUpdate, hc]
    · by_cases hd : d.1 ∈ keys
      · simp [applyCredits, dictUpdate, hd, ih h' hc]
      · simp [applyCredits, dictUpdate, hd]

theorem applyCredits_val {keys : List String} :
    ∀ {cs : List (String × OwnerMetrics)} {m m' : String → OwnerMetrics},
      applyCredits keys cs m = some m' →
      ∀ x, m' x = addOM (m x) (sumCredits x cs) := by
  intro cs
  induction cs with
  | nil =>
    intro m m' h x
    simp only [applyCredits, Option.some.injEq] at h
    simp [← h, sumCredits, addOM_zero_right]
  | cons c cs ih =>
    intro m m' h x
    by_cases hc : c.1 ∈ keys
    · simp only [applyCredits, dictUpdate, hc, if_pos] at h
      have := ih h x
      by_cases hx : x = c.1
      · subst hx
        simp only [if_pos rfl] at this
        simp [this, sumCredits, if_pos rfl, addOM_assoc]
      · have hxc : ¬ (c.1 = x) := fun hxx => hx hxx.symm
        simp only [if_neg hx] at this
        simp [this, sumCredits, hxc]
    · simp [applyCredits, dictUpdate, hc] at h

theorem sumCredits_proj (p : OwnerMetrics → Nat)
    (hp : ∀ a b, p (addOM a b) = p a + p b) (hz : p zeroMetrics = 0)
    (x : String) :
    ∀ cs : List (String × OwnerMetrics),
      p (sumCredits x cs) = ((cs.filter fun c => c.1 = x).map fun c => p c.2).sum := by
  intro cs
  induction cs with
  | nil => simpa [sumCredits] using hz
  | cons c cs ih =>
    by_cases hc : c.1 = x
    · simp [sumCredits, hc, hp, ih, List.filter_cons, hc]
    · simp [sumCredits, hc, ih, List.filter_cons, hc]

theorem sum_map_ite_zero_of_not_mem {a : String} (v : Nat) :
    ∀ {l : List String}, a ∉ l →
      (l.map fun o => if a = o then v else 0).sum = 0 := by
  intro l
  induction l with
  | nil => simp
  | cons b l ih =>
    intro h
    have hab : a ≠ b := fun hh => h (hh ▸ List.mem_cons_self _ _)
    have : a ∉ l := fun hh => h (List.mem_cons_of_mem _ hh)
    simp [hab, ih this]

theorem sum_map_ite_single {a : String} (v : Nat) :
    ∀ {l : List String}, l.Nodup → a ∈ l →
      (l.map fun o => if a = o then v else 0).sum = v := by
  intro l
  induction l with
  | nil => intro _ h; cases h
  | cons b l ih =>
    intro hnd hmem
    rcases List.mem_cons.mp hmem with rfl | h'
    · simp [sum_map_ite_zero_of_not_mem v (List.nodup_cons.mp hnd).1]
    · have hab : a ≠ b := by
        rintro rfl
        exact (List.nodup_cons.mp hnd).1 h'
      simp [hab, ih (List.nodup_cons.mp hnd).2 h']

/-- Partition of a credit total over the distinct keys: if every credit key
is a possible owner, summing per-key filtered totals over the distinct
owners recovers the full total. -/
theorem sum_dedup_filter (keys : List String) (w : String × OwnerMetrics → Nat) :
    ∀ cs : List (String × OwnerMetrics), (∀ c ∈ cs, c.1 ∈ keys) →
      (keys.dedup.map fun o => ((cs.filter fun c => c.1 = o).map w).sum).sum =
        (cs.map w).sum := by
  intro cs
  induction cs with
  | nil => simp
  | cons c cs ih =>
    intro h
    have hc : c.1 ∈ keys.dedup := List.mem_dedup.mpr (h c (List.mem_cons_self _ _))
    have htail := ih fun d hd => h d (List.mem_cons_of_mem _ hd)
    have hsplit : ∀ o : String,
        (((c :: cs).filter fun d => d.1 = o).map w).sum =
          ((cs.filter fun d => d.1 = o).map w).sum + (if c.1 = o then w c else 0) := by
      intro o
      by_cases hco : c.1 = o <;> simp [List.filter_cons, hco, Nat.add_comm]
    calc (keys.dedup.map fun o => (((c :: cs).filter fun d => d.1 = o).map w).sum).sum
        = (keys.dedup.map fun o =>
            ((cs.filter fun d => d.1 = o).map w).sum + (if c.1 = o then w c else 0)).sum := by
          exact congrArg List.sum (List.map_congr_left fun o _ => hsplit o)
      _ = (keys.dedup.map fun o => ((cs.filter fun d => d.1 = o).map w).sum).sum +
            (keys.dedup.map fun o => if c.1 = o then w c else 0).sum := by
          rw [← List.sum_map_add]
      _ = (cs.map w).sum + w c := by
          rw [htail, sum_map_ite_single (w c) keys.nodup_dedup hc]
      _ = ((c :: cs).map w).sum := by simp [Nat.add_comm]

theorem sum_map_one {α : Type} (l : List α) :
    (l.map fun _ => (1 : Nat)).sum = l.length := by
  induction l with
  | nil => rfl
  | cons a l ih => simp [ih, Nat.add_comm]

theorem sum_map_zero {α : Type} (l : List α) :
    (l.map fun _ => (0 : Nat)).sum = 0 := by
  induction l <;> simp_all

theorem sum_map_flatMap {α β : Type} (L : List α) (g : α → List β) (w : β → Nat) :
    ((L.flatMap g).map w).sum = (L.map fun a => ((g a).map w).sum).sum := by
  induction L with
  | nil => rfl
  | cons a L ih => simp [List.flatMap_cons, List.map_append, List.sum_append, ih]

theorem fs_length (d : Node) :
    (dirFiles d ++ dirSymlinks d).length = currentDirFilesCount d := by
  simp [dirFiles, dirSymlinks, currentDirFilesCount, getNodesCount]

theorem map_weight_const {α β : Type} (l : List α) (g : α → β) (w : β → Nat)
    (k : Nat) (hk : ∀ a, w (g a) = k) :
    ((l.map g).map w).sum = (l.map fun _ => k).sum := by
  rw [List.map_map]
  exact congrArg List.sum (List.map_congr_left fun a _ => hk a)

/-- The total `own_files_count` credit handed out by `metrics_by_owners`:
only the direct files/symlinks of self contribute, one each. -/
theorem credits_ofc_sum (n : Node) :
    ((metricsCredits n).map fun c => c.2.own_files_count).sum =
      currentDirFilesCount n := by
  unfold metricsCredits
  rw [List.map_append, List.sum_append, List.map_append, List.sum_append,
    sum_map_flatMap]
  have hA := map_weight_const (dirFiles n ++ dirSymlinks n)
    (fun f => (f.owner, fileCredit f)) (fun c => c.2.own_files_count) 1
    (fun _ => rfl)
  have hB := map_weight_const (dirSubDirs n)
    (fun d => (d.owner, ownDirCredit)) (fun c => c.2.own_files_count) 0
    (fun _ => rfl)
  have hC : ((dirsPreorderList n.subNodes).map fun sd =>
      ((((sd.owner, subDirCredit) :: ((dirFiles sd ++ dirSymlinks sd).map
        fun f => (f.owner, subFileCredit f))).map
          fun c => c.2.own_files_count)).sum).sum = 0 := by
    rw [show ((dirsPreorderList n.subNodes).map fun sd =>
        ((((sd.owner, subDirCredit) :: ((dirFiles sd ++ dirSymlinks sd).map
          fun f => (f.owner, subFileCredit f))).map
            fun c => c.2.own_files_count)).sum) =
        (dirsPreorderList n.subNodes).map fun _ => 0 from
      List.map_congr_left fun sd _ => by
        rw [List.map_cons, List.sum_cons,
          map_weight_const (dirFiles sd ++ dirSymlinks sd)
            (fun f => (f.owner, subFileCredit f))
            (fun c => c.2.own_files_count) 0 (fun _ => rfl),
          sum_map_zero]
        simp [subDirCredit]]
    exact sum_map_zero _
  rw [hA, hB, hC]
  rw [sum_map_one, sum_map_zero, fs_length]
  omega

/-- The total `sub_files_count` credit handed out by `metrics_by_owners`:
direct files/symlinks of self plus the direct files/symlinks of every
directory in the subtree, one each. -/
theorem credits_sfc_sum (n : Node) :
    ((metricsCredits n).map fun c => c.2.sub_files_count).sum =
      totalFilesCount n := by
  unfold metricsCredits
  rw [List.map_append, List.sum_append, List.map_append, List.sum_append,
    sum_map_flatMap]
  have hA := map_weight_const (dirFiles n ++ dirSymlinks n)
    (fun f => (f.owner, fileCredit f)) (fun c => c.2.sub_files_count) 1
    (fun _ => rfl)
  have hB := map_weight_const (dirSubDirs n)
    (fun d => (d.owner, ownDirCredit)) (fun c => c.2.sub_files_count) 0
    (fun _ => rfl)
  have hC : ((dirsPreorderList n.subNodes).map fun sd =>
      ((((sd.owner, subDirCredit) :: ((dirFiles sd ++ dirSymlinks sd).map
        fun f => (f.owner, subFileCredit f))).map
          fun c => c.2.sub_files_count)).sum).sum =
      ((dirsPreorderList n.subNodes).map currentDirFilesCount).sum := by
    refine congrArg List.sum (List.map_congr_left fun sd _ => ?_)
    rw [List.map_cons, List.sum_cons,
      map_weight_const (dirFiles sd ++ dirSymlinks sd)
        (fun f => (f.owner, subFileCredit f))
        (fun c => c.2.sub_files_count) 1 (fun _ => rfl),
      sum_map_one, fs_length]
    simp [subDirCredit]
  rw [hA, hB, hC, sum_map_one, fs_length]
  have hdec := totalFiles_decomposition n
  rw [getAllDirs_eq_dirsPreorderList] at hdec
  have hzero := sum_map_zero (dirSubDirs n)
  omega

/-- C4: for every directory whose subtree owners (its files', symlinks'
and all descendants') are all members of its `possible_owners`,
`metrics_by_owners` succeeds (no KeyError) and reconciles: the owner-sum
of `own_files_count` equals `current_dir_files_count`, and the owner-sum
of `sub_files_count` equals `total_files_count`. -/
theorem metrics_by_owners_reconciliation (n : Node)
    (h : ∀ x ∈ subNodesRec n, Node.owner x ∈ n.possibleOwners) :
    ∃ m, metricsByOwners n = some m ∧
      sumOwners (fun r => r.own_files_count) n.possibleOwners m =
        currentDirFilesCount n ∧
      sumOwners (fun r => r.sub_files_count) n.possibleOwners m =
        totalFilesCount n := by
  have hkeys : ∀ c ∈ metricsCredits n, c.1 ∈ n.possibleOwners := by
    intro c hc
    simp only [metricsCredits, List.mem_append, List.mem_map,
      List.mem_flatMap, List.mem_cons] at hc
    rcases hc with (⟨f, hf, rfl⟩ | ⟨d, hd, rfl⟩) | ⟨sd, hsd, hc⟩
    · apply h
      apply mem_subNodesRec_of_mem_subNodes
      rcases hf with h' | h'
      · exact List.mem_of_mem_filter h'
      · exact List.mem_of_mem_filter h'
    · exact h d (mem_subNodesRec_of_mem_subNodes (List.mem_of_mem_filter hd))
    · have hsdmem : sd ∈ subNodesRec n := by
        have hsd' : sd ∈ getAllDirs n := by
          rw [getAllDirs_eq_dirsPreorderList]; exact hsd
        exact List.mem_of_mem_filter hsd'
      rcases hc with rfl | ⟨f, hf, rfl⟩
      · exact h sd hsdmem
      · have hffs : f ∈ sd.subNodes := by
          rcases hf with h' | h'
          · exact List.mem_of_mem_filter h'
          · exact List.mem_of_mem_filter h'
        exact h f (mem_subNodesRec_trans n hsdmem
          (mem_subNodesRec_of_mem_subNodes hffs))
  obtain ⟨m, hm⟩ :=
    @applyCredits_some n.possibleOwners (metricsCredits n) (fun _ => zeroMetrics) hkeys
  have hval := applyCredits_val hm
  refine ⟨m, hm, ?_, ?_⟩
  · have hproj : ∀ o, (fun r => r.own_files_count) (m o) =
        (((metricsCredits n).filter fun c => c.1 = o).map
          fun c => c.2.own_files_count).sum := by
      intro o
      rw [hval o, addOM_zero_left]
      exact sumCredits_proj (fun r => r.own_files_count)
        (fun a b => rfl) rfl o (metricsCredits n)
    unfold sumOwners
    rw [List.map_congr_left fun o _ => hproj o,
      sum_dedup_filter n.possibleOwners _ (metricsCredits n) hkeys,
      credits_ofc_sum]
  · have hproj : ∀ o, (fun r => r.sub_files_count) (m o) =
        (((metricsCredits n).filter fun c => c.1 = o).map
          fun c => c.2.sub_files_count).sum := by
      intro o
      rw [hval o, addOM_zero_left]
      exact sumCredits_proj (fun r => r.sub_files_count)
        (fun a b => rfl) rfl o (metricsCredits n)
    unfold sumOwners
    rw [List.map_congr_left fun o _ => hproj o,
      sum_dedup_filter n.possibleOwners _ (metricsCredits n) hkeys,
      credits_sfc_sum]

/-- Concrete check of `metrics_by_owners_reconciliation` on the two-file
sample tree (all owners are "root", which is a possible owner). -/
theorem metrics_by_owners_reconciliation_checked :
    (∀ x ∈ subNodesRec twoFileTree,
        Node.owner x ∈ twoFileTree.possibleOwners) ∧
      ∃ m, metricsByOwners twoFileTree = some m ∧
        sumOwners (fun r => r.own_files_count) twoFileTree.possibleOwners m =
          currentDirFilesCount twoFileTree ∧
        sumOwners (fun r => r.sub_files_count) twoFileTree.possibleOwners m =
          totalFilesCount twoFileTree :=
  ⟨by decide, metrics_by_owners_reconciliation twoFileTree (by decide)⟩

mutual
theorem treeIsoB_refl (n : Node) : treeIsoB n n = true := by
  cases n with
  | dir d nm ow po cs => simp [treeIsoB, treeIsoListB_refl cs]
  | file d nm ow s a m => simp [treeIsoB]
  | hardLink d nm ow t => simp [treeIsoB]
  | symLink d nm ow t s a m => simp [treeIsoB]

theorem treeIsoListB_refl (cs : List Node) : treeIsoListB cs cs = true := by
  cases cs with
  | nil => rfl
  | cons c cs => simp [treeIsoListB, treeIsoB_refl c, treeIsoListB_refl cs]
end

/-- C1: two runs of tree generation with identical seed, default_time,
shape configuration, owners and file_sizes — i.e. identical `GenConfig`
and seed — yield isomorphic logical trees: same names, owners, timestamps
and sizes at every corresponding position. All randomness is drawn from
the one seeded stream, so the whole run is a function of (seed, config). -/
theorem generate_tree_reproducible (cfg : GenConfig) (s : Nat)
    (t₁ t₂ : Node) (r₁ r₂ : Rng)
    (h₁ : generateTree cfg (mkRng s) = .ok (t₁, r₁))
    (h₂ : generateTree cfg (mkRng s) = .ok (t₂, r₂)) :
    treeIsoB t₁ t₂ = true := by
  rw [h₁] at h₂
  simp only [Except.ok.injEq, Prod.mk.injEq] at h₂
  obtain ⟨ht, -⟩ := h₂
  subst ht
  exact treeIsoB_refl t₁

/-- Concrete check of `generate_tree_reproducible`: the seed-42 run
succeeds, and the theorem applies to its two (identical) executions. -/
theorem generate_tree_reproducible_checked :
    generateTree c1cfg (mkRng 42) = .ok (c1res.1, c1res.2) ∧
      treeIsoB c1res.1 c1res.1 = true :=
  ⟨rfl, generate_tree_reproducible c1cfg 42 c1res.1 c1res.1 c1res.2 c1res.2 rfl rfl⟩

/-- C7: the hard-link phase draws `randint(0, len(dirs))` and
`randint(1, len(files))` — Python's randint includes the upper bound, so
the subscript can land one past the end of the inventory (and `files[0]`
is unreachable). On a tree with one directory and one file the file index
is always `1 = len(files)`, so the very first hard link raises
IndexError. -/
theorem hard_link_target_selection_out_of_range :
    createHardLinksInTree 1 c7tree ⟨0⟩ =
      .error "IndexError: list index out of range" := by
  rfl

/-! ### Claim C9: path chunking -/

theorem chunkLoop_step {l : List String} (h : l.length > 50) :
    chunkLoop l =
      (l.take 50 :: (chunkLoop (l.drop 50)).1, (chunkLoop (l.drop 50)).2) := by
  rw [chunkLoop]
  simp [h]

theorem chunkLoop_flatten_bounded :
    ∀ (N : Nat) (l : List String), l.length ≤ N →
      (chunkLoop l).1.flatten ++ (chunkLoop l).2 = l := by
  intro N
  induction N with
  | zero =>
    intro l hl
    rw [chunkLoop]
    have h : ¬ l.length > 50 := by omega
    simp [h]
  | succ N ih =>
    intro l hl
    rw [chunkLoop]
    by_cases h : l.length > 50
    · simp only [h, dite_true, List.flatten_cons, List.append_assoc]
      rw [ih (l.drop 50) (by simp [List.length_drop]; omega)]
      exact List.take_append_drop 50 l
    · simp [h]

theorem chunkLoop_flatten (l : List String) :
    (chunkLoop l).1.flatten ++ (chunkLoop l).2 = l :=
  chunkLoop_flatten_bounded l.length l le_rfl

theorem chunkLoop_sublists_bounded :
    ∀ (N : Nat) (l : List String), l.length ≤ N →
      (∀ ch ∈ (chunkLoop l).1, ch.Sublist l) ∧ (chunkLoop l).2.Sublist l := by
  intro N
  induction N with
  | zero =>
    intro l hl
    rw [chunkLoop]
    have h : ¬ l.length > 50 := by omega
    simp [h]
  | succ N ih =>
    intro l hl
    rw [chunkLoop]
    by_cases h : l.length > 50
    · have ⟨ihc, ihr⟩ := ih (l.drop 50) (by simp [List.length_drop]; omega)
      simp only [h, dite_true]
      refine ⟨?_, ihr.trans (List.drop_sublist 50 l)⟩
      intro ch hch
      rcases List.mem_cons.mp hch with rfl | hch'
      · exact List.take_sublist 50 l
      · exact (ihc ch hch').trans (List.drop_sublist 50 l)
    · simp [h]

theorem pyJoin_rel_of_not_mem {ch : List String} (h : "/" ∉ ch) :
    pyJoin ch = .rel ch := by
  cases ch with
  | nil => rfl
  | cons a t =>
    have ha : a ≠ "/" := fun hh => h (hh ▸ List.mem_cons_self a t)
    simp [pyJoin, ha]

theorem foldl_chdir_rel :
    ∀ (chunks : List (List String)) (cwd : Loc),
      (∀ ch ∈ chunks, pyJoin ch = .rel ch) →
      chunks.foldl (fun c ch => chdirM c (pyJoin ch)) cwd = cwd ++ chunks.flatten := by
  intro chunks
  induction chunks with
  | nil => intro cwd _; simp
  | cons c0 cs ih =>
    intro cwd h
    have h0 := h c0 (List.mem_cons_self _ _)
    rw [List.foldl_cons, h0]
    rw [ih (chdirM cwd (.rel c0)) fun ch hch => h ch (List.mem_cons_of_mem _ hch)]
    simp [chdirM]

/-- C9: for an absolute path whose split has more than 100 segments, the
chunked procedure (chunks of 50, sequential chdir, final operation
relative to the last chunk) resolves the operation at exactly the
location the unchunked absolute operation resolves to, and afterwards the
working context is back at the generator's base context START_PATH —
which is what it was before the call, since every creation call leaves
the process there. (Path segments never contain `/`, being produced by
`split('/')`.) -/
theorem path_chunking_refines_unchunked (sp cwd0 : Loc) (segs : List String)
    (hlong : 100 < ("" :: segs).length) (hns : "/" ∉ segs) (h0 : cwd0 = sp) :
    chunkedCreate sp cwd0 segs = unchunkedCreate sp cwd0 segs ∧
      (chunkedCreate sp cwd0 segs).2 = cwd0 := by
  subst h0
  have hlen : segs.length ≥ 100 := by
    simp only [List.length_cons] at hlong
    omega
  unfold chunkedCreate unchunkedCreate
  rw [if_pos hlong]
  have hdl : ("/" :: segs).length > 50 := by
    simp only [List.length_cons]
    omega
  rw [chunkLoop_step hdl]
  dsimp only
  have htake : ("/" :: segs).take 50 = "/" :: segs.take 49 := by
    simp [List.take_succ_cons]
  have hdrop : ("/" :: segs).drop 50 = segs.drop 49 := by
    simp [List.drop_succ_cons]
  have hsubs := chunkLoop_sublists_bounded (segs.drop 49).length (segs.drop 49) le_rfl
  have hnot : ∀ ch : List String, ch.Sublist (segs.drop 49) → "/" ∉ ch := by
    intro ch hs hm
    exact hns ((List.drop_sublist 49 segs).subset (hs.subset hm))
  have hchunksRel : ∀ ch ∈ (chunkLoop (segs.drop 49)).1, pyJoin ch = .rel ch :=
    fun ch hch => pyJoin_rel_of_not_mem (hnot ch (hsubs.1 ch hch))
  have hremRel : pyJoin (chunkLoop (segs.drop 49)).2 =
      .rel (chunkLoop (segs.drop 49)).2 :=
    pyJoin_rel_of_not_mem (hnot _ hsubs.2)
  rw [htake, hdrop]
  rw [List.foldl_cons]
  have hfirst : chdirM cwd0 (pyJoin ("/" :: segs.take 49)) = segs.take 49 := by
    simp [pyJoin, chdirM]
  rw [hfirst, foldl_chdir_rel _ _ hchunksRel, hremRel]
  simp only [chdirM, List.append_assoc]
  rw [chunkLoop_flatten (segs.drop 49)]
  rw [List.take_append_drop 49 segs]
  exact ⟨rfl, trivial⟩

/-- Concrete check of `path_chunking_refines_unchunked` on a 101-segment
path. -/
theorem path_chunking_refines_unchunked_checked :
    chunkedCreate ["base"] ["base"] (List.replicate 101 "d") =
        unchunkedCreate ["base"] ["base"] (List.replicate 101 "d") ∧
      (chunkedCreate ["base"] ["base"] (List.replicate 101 "d")).2 = ["base"] :=
  path_chunking_refines_unchunked ["base"] ["base"] (List.replicate 101 "d")
    (by decide) (by decide) rfl

/-! ### Inversion helpers for the Except-threaded generator -/

theorem exceptBind_ok {α β : Type} (a : α) (k : α → Except String β) :
    (Except.ok a >>= k) = k a := rfl

theorem exceptBind_err {α β : Type} (e : String) (k : α → Except String β) :
    ((Except.error e : Except String α) >>= k) = .error e := rfl

theorem bind_ok_iff {α β : Type} {m : Except String α}
    {k : α → Except String β} {b : β} :
    (m >>= k) = .ok b ↔ ∃ a, m = .ok a ∧ k a = .ok b := by
  cases m with
  | error e => simp [exceptBind_err]
  | ok a => simp [exceptBind_ok]

theorem randintN_bounds {lo hi v : Nat} {r r' : Rng}
    (h : randintN lo hi r = .ok (v, r')) : lo ≤ v ∧ v ≤ hi := by
  unfold randintN at h
  by_cases hc : hi < lo
  · simp [hc] at h
  · simp only [hc, if_false] at h
    simp only [Except.ok.injEq, Prod.mk.injEq] at h
    obtain ⟨hv, -⟩ := h
    have hm : (r.next).1 % (hi - lo + 1) < hi - lo + 1 :=
      Nat.mod_lt _ (Nat.succ_pos _)
    omega

theorem choice_mem {α : Type} {l : List α} {a : α} {r r' : Rng}
    (h : choice l r = .ok (a, r')) : a ∈ l := by
  unfold choice at h
  rcases hnx : r.next with ⟨v, r2⟩
  rw [hnx] at h
  dsimp only at h
  cases hg : l.get? (v % l.length) with
  | none => rw [hg] at h; simp at h
  | some b =>
    rw [hg] at h
    simp only [Except.ok.injEq, Prod.mk.injEq] at h
    obtain ⟨rfl, -⟩ := h
    exact List.get?_mem hg

/-- Any successful `_gen_file_params` draw yields a size within the
±30% jitter window of the base byte count of one of the configured
classes. -/
theorem genFileParams_bound {sizes : List String} {r : Rng} {sz : Nat}
    {e : String} {r' : Rng}
    (h : genFileParams sizes r = .ok ((sz, e), r')) :
    ∃ c ∈ sizes, ∃ b, sizeOfClass c = some b ∧
      b * 7 / 10 ≤ sz ∧ sz ≤ b * 13 / 10 := by
  unfold genFileParams at h
  rw [bind_ok_iff] at h
  obtain ⟨⟨ftype, r1⟩, h1, h⟩ := h
  dsimp only at h
  rw [bind_ok_iff] at h
  obtain ⟨⟨fext, r2⟩, h2, h⟩ := h
  dsimp only at h
  rw [bind_ok_iff] at h
  obtain ⟨⟨sname, r3⟩, h3, h⟩ := h
  dsimp only at h
  cases hs : sizeOfClass sname with
  | none => rw [hs] at h; simp at h
  | some base =>
    rw [hs] at h
    rw [bind_ok_iff] at h
    obtain ⟨⟨fsz, r4⟩, h4, h⟩ := h
    dsimp only at h
    simp only [Except.ok.injEq, Prod.mk.injEq] at h
    obtain ⟨⟨rfl, rfl⟩, -⟩ := h
    exact ⟨sname, choice_mem h3, base, hs, randintN_bounds h4⟩

/-- Under `file_sizes=["small"]` the draw lands in [71680, 133120]. -/
theorem genFileParams_small {r : Rng} {sz : Nat} {e : String} {r' : Rng}
    (h : genFileParams ["small"] r = .ok ((sz, e), r')) :
    71680 ≤ sz ∧ sz ≤ 133120 := by
  obtain ⟨c, hc, b, hb, hlo, hhi⟩ := genFileParams_bound h
  have : c = "small" := by simpa using hc
  subst this
  simp only [sizeOfClass, Option.some.injEq] at hb
  subst hb
  have e1 : SIZE_SMALL * 7 / 10 = 71680 := rfl
  have e2 : SIZE_SMALL * 13 / 10 = 133120 := rfl
  constructor <;> omega

theorem subNodesRecList_append (a b : List Node) :
    subNodesRecList (a ++ b) = subNodesRecList a ++ subNodesRecList b := by
  induction a with
  | nil => simp [subNodesRecList]
  | cons c cs ih => simp [subNodesRecList, ih]

/-- The collision loop only ever hands back the initial params or params
freshly drawn by `_gen_file_params`. -/
theorem regenFileName_small {cfg : GenConfig} (hsz : cfg.fileSizes = ["small"]) :
    ∀ {fuel : Nat} {p : Nat × String} {fn : String} {ex : List String}
      {r : Rng} {pn : (Nat × String) × String} {r' : Rng},
      71680 ≤ p.1 ∧ p.1 ≤ 133120 →
      regenFileName cfg fuel p fn ex r = .ok (pn, r') →
      71680 ≤ pn.1.1 ∧ pn.1.1 ≤ 133120 := by
  intro fuel
  induction fuel with
  | zero => intro p fn ex r pn r' hp h; simp [regenFileName] at h
  | succ fuel ih =>
    intro p fn ex r pn r' hp h
    rw [regenFileName] at h
    by_cases hmem : fn ∈ ex
    · rw [if_pos hmem] at h
      rw [bind_ok_iff] at h
      obtain ⟨⟨p', r1⟩, h1, h⟩ := h
      dsimp only at h
      rw [bind_ok_iff] at h
      obtain ⟨⟨nm, r2⟩, h2, h⟩ := h
      dsimp only at h
      have hb : 71680 ≤ p'.1 ∧ p'.1 ≤ 133120 := by
        obtain ⟨ps, pe⟩ := p'
        exact genFileParams_small (hsz ▸ h1)
      exact ih hb h
    · rw [if_neg hmem] at h
      simp only [Except.ok.injEq, Prod.mk.injEq] at h
      obtain ⟨rfl, -⟩ := h
      exact hp

/-- Every node `create_files_at_level` appends is a File whose size obeys
the small-class jitter window when `file_sizes=["small"]`. -/
theorem createOneFile_out {cfg : GenConfig} {path : String} {ex : List String}
    {r : Rng} {f : Node} {r' : Rng}
    (h : createOneFile cfg path ex r = .ok (f, r')) :
    f.isFile = true ∧
      (cfg.fileSizes = ["small"] →
        71680 ≤ f.sizeAttr ∧ f.sizeAttr ≤ 133120) := by
  unfold createOneFile at h
  rw [bind_ok_iff] at h
  obtain ⟨⟨p, r1⟩, h1, h⟩ := h
  dsimp only at h
  rw [bind_ok_iff] at h
  obtain ⟨⟨ownersLvl, r2⟩, h2, h⟩ := h
  dsimp only at h
  rw [bind_ok_iff] at h
  obtain ⟨⟨fowner, r3⟩, h3, h⟩ := h
  dsimp only at h
  rw [bind_ok_iff] at h
  obtain ⟨⟨nm, r4⟩, h4, h⟩ := h
  dsimp only at h
  rw [bind_ok_iff] at h
  obtain ⟨⟨pn, r5⟩, h5, h⟩ := h
  dsimp only at h
  rw [bind_ok_iff] at h
  obtain ⟨⟨ta, r6⟩, h6, h⟩ := h
  dsimp only at h
  rw [bind_ok_iff] at h
  obtain ⟨⟨tm, r7⟩, h7, h⟩ := h
  dsimp only at h
  simp only [Except.ok.injEq, Prod.mk.injEq] at h
  obtain ⟨rfl, -⟩ := h
  refine ⟨rfl, fun hsz => ?_⟩
  have hp : 71680 ≤ p.1 ∧ p.1 ≤ 133120 := by
    obtain ⟨ps, pe⟩ := p
    exact genFileParams_small (hsz ▸ h1)
  exact regenFileName_small hsz hp h5

/-- Members added to the subtree by `create_files_at_level` all come from
`createOneFile`. -/
theorem createFilesAtLevel_out {cfg : GenConfig} {path : String} :
    ∀ {k : Nat} {acc : List Node} {r : Rng} {out : List Node} {r' : Rng},
      createFilesAtLevel cfg path k acc r = .ok (out, r') →
      ∀ x ∈ subNodesRecList out, x ∈ subNodesRecList acc ∨
        ∃ ex r₁ r₂, createOneFile cfg path ex r₁ = .ok (x, r₂) := by
  intro k
  induction k with
  | zero =>
    intro acc r out r' h x hx
    simp only [createFilesAtLevel, Except.ok.injEq, Prod.mk.injEq] at h
    obtain ⟨rfl, -⟩ := h
    exact Or.inl hx
  | succ k ih =>
    intro acc r out r' h x hx
    rw [createFilesAtLevel] at h
    rw [bind_ok_iff] at h
    obtain ⟨⟨f, r1⟩, h1, h⟩ := h
    dsimp only at h
    rcases ih h x hx with hmem | hcreated
    · rw [subNodesRecList_append] at hmem
      rcases List.mem_append.mp hmem with hl | hr
      · exact Or.inl hl
      · have hfile : f.isFile = true := (createOneFile_out h1).1
        have hleaf : subNodesRec f = [] := by
          cases f <;> simp_all [Node.isFile, subNodesRec]
        simp only [subNodesRecList, hleaf, List.append_nil, List.nil_append] at hr
        rcases List.mem_cons.mp hr with rfl | hfalse
        · exact Or.inr ⟨acc.map Node.name, r, r1, h1⟩
        · simp [subNodesRecList] at hfalse
    · exact Or.inr hcreated

/-- Members added to the subtree by `create_dirs_at_level` are the fresh
empty Directory shells. -/
theorem createDirShells_out {cfg : GenConfig} {path : String} :
    ∀ {k : Nat} {acc : List Node} {r : Rng} {out : List Node} {r' : Rng},
      createDirShells cfg path k acc r = .ok (out, r') →
      ∀ x ∈ subNodesRecList out, x ∈ subNodesRecList acc ∨ x.isDir = true := by
  intro k
  induction k with
  | zero =>
    intro acc r out r' h x hx
    simp only [createDirShells, Except.ok.injEq, Prod.mk.injEq] at h
    obtain ⟨rfl, -⟩ := h
    exact Or.inl hx
  | succ k ih =>
    intro acc r out r' h x hx
    rw [createDirShells] at h
    rw [bind_ok_iff] at h
    obtain ⟨⟨ownersLvl, r1⟩, h1, h⟩ := h
    dsimp only at h
    rw [bind_ok_iff] at h
    obtain ⟨⟨downer, r2⟩, h2, h⟩ := h
    dsimp only at h
    rw [bind_ok_iff] at h
    obtain ⟨⟨nm, r3⟩, h3, h⟩ := h
    dsimp only at h
    rw [bind_ok_iff] at h
    obtain ⟨⟨dname, r4⟩, h4, h⟩ := h
    dsimp only at h
    rcases ih h x hx with hmem | hdir
    · rw [subNodesRecList_append] at hmem
      rcases List.mem_append.mp hmem with hl | hr
      · exact Or.inl hl
      · simp only [subNodesRecList, subNodesRec, List.append_nil,
          List.nil_append] at hr
        rcases List.mem_cons.mp hr with rfl | hfalse
        · exact Or.inr rfl
        · simp [subNodesRecList] at hfalse
    · exact Or.inr hdir

theorem subNodesRec_eq_recList (n : Node) :
    subNodesRec n = subNodesRecList n.subNodes := by
  cases n <;> rfl

theorem recList_flatMap {α : Type} (L : List α) (g : α → List Node)
    (p : Node → Prop) (h : ∀ a ∈ L, ∀ x ∈ subNodesRecList (g a), p x) :
    ∀ x ∈ subNodesRecList (L.flatMap g), p x := by
  induction L with
  | nil => intro x hx; simp [subNodesRecList] at hx
  | cons a L ih =>
    intro x hx
    rw [List.flatMap_cons, subNodesRecList_append] at hx
    rcases List.mem_append.mp hx with hl | hr
    · exact h a (List.mem_cons_self _ _) x hl
    · exact ih (fun b hb => h b (List.mem_cons_of_mem _ hb)) x hr

/-- Every subtree member the final file pass produces is an existing
frontier member, a (rebuilt) directory, or a `createOneFile` product. -/
theorem finalPass_out {cfg : GenConfig} :
    ∀ {ds : List Node} {r : Rng} {out : List Node} {r' : Rng},
      finalPass cfg ds r = .ok (out, r') →
      ∀ x ∈ subNodesRecList out, x ∈ subNodesRecList ds ∨ x.isDir = true ∨
        ∃ path ex r₁ r₂, createOneFile cfg path ex r₁ = .ok (x, r₂) := by
  intro ds
  induction ds with
  | nil =>
    intro r out r' h x hx
    simp only [finalPass, Except.ok.injEq, Prod.mk.injEq] at h
    obtain ⟨rfl, -⟩ := h
    simp [subNodesRecList] at hx
  | cons d ds ih =>
    intro r out r' h x hx
    rw [finalPass] at h
    rw [bind_ok_iff] at h
    obtain ⟨⟨counts, r1⟩, h1, h⟩ := h
    dsimp only at h
    rw [bind_ok_iff] at h
    obtain ⟨⟨fs, r2⟩, h2, h⟩ := h
    dsimp only at h
    rw [bind_ok_iff] at h
    obtain ⟨⟨rest, r3⟩, h3, h⟩ := h
    dsimp only at h
    simp only [Except.ok.injEq, Prod.mk.injEq] at h
    obtain ⟨rfl, -⟩ := h
    simp only [subNodesRecList, subNodesRec, List.mem_cons,
      List.mem_append] at hx
    rcases hx with rfl | hx | hx
    · exact Or.inr (Or.inl rfl)
    · rw [subNodesRecList_append] at hx
      rcases List.mem_append.mp hx with hsub | hfs
      · rw [← subNodesRec_eq_recList] at hsub
        refine Or.inl ?_
        simp only [subNodesRecList, List.mem_cons, List.mem_append]
        exact Or.inr (Or.inl hsub)
      · rcases createFilesAtLevel_out h2 x hfs with hemp | hcreated
        · simp [subNodesRecList] at hemp
        · exact Or.inr (Or.inr ⟨Node.fullPath d, hcreated⟩)
    · rcases ih h3 x hx with hds | hrest
      · refine Or.inl ?_
        simp only [subNodesRecList, List.mem_cons, List.mem_append]
        exact Or.inr (Or.inr hds)
      · exact Or.inr hrest

/-- Per-entry characterization of one frontier pass. -/
theorem levelStep_out {cfg : GenConfig} :
    ∀ {ds : List Node} {r : Rng}
      {entries : List (Node × List Node × List Node)} {r' : Rng},
      levelStep cfg ds r = .ok (entries, r') →
      ∀ ent ∈ entries,
        (∀ x ∈ subNodesRecList ent.2.1, x.isDir = true) ∧
        (∀ x ∈ subNodesRecList ent.2.2,
          ∃ ex r₁ r₂, createOneFile cfg (Node.fullPath ent.1) ex r₁ = .ok (x, r₂)) := by
  intro ds
  induction ds with
  | nil =>
    intro r entries r' h ent hent
    simp only [levelStep, Except.ok.injEq, Prod.mk.injEq] at h
    obtain ⟨rfl, -⟩ := h
    cases hent
  | cons d ds ih =>
    intro r entries r' h ent hent
    rw [levelStep] at h
    rw [bind_ok_iff] at h
    obtain ⟨⟨counts, r1⟩, h1, h⟩ := h
    dsimp only at h
    rw [bind_ok_iff] at h
    obtain ⟨⟨subs, r2⟩, h2, h⟩ := h
    dsimp only at h
    rw [bind_ok_iff] at h
    obtain ⟨⟨fs, r3⟩, h3, h⟩ := h
    dsimp only at h
    rw [bind_ok_iff] at h
    obtain ⟨⟨rest, r4⟩, h4, h⟩ := h
    dsimp only at h
    simp only [Except.ok.injEq, Prod.mk.injEq] at h
    obtain ⟨rfl, -⟩ := h
    rcases List.mem_cons.mp hent with rfl | hent'
    · constructor
      · intro x hx
        rcases createDirShells_out h2 x hx with hemp | hdir
        · simp [subNodesRecList] at hemp
        · exact hdir
      · intro x hx
        rcases createFilesAtLevel_out h3 x hx with hemp | hcreated
        · simp [subNodesRecList] at hemp
        · exact hcreated
    · exact ih h4 ent hent'

/-- Members of a reattached level: a rebuilt directory, a member of the
recursively built sub-forest, or a member of an entry's file list. -/
theorem reattach_out :
    ∀ (entries : List (Node × List Node × List Node)) (built : List Node)
      (x : Node), x ∈ subNodesRecList (reattach entries built) →
      x.isDir = true ∨ x ∈ subNodesRecList built ∨
        ∃ ent ∈ entries, x ∈ subNodesRecList ent.2.2 := by
  intro entries
  induction entries with
  | nil => intro built x hx; simp [reattach, subNodesRecList] at hx
  | cons e rest ih =>
    intro built x hx
    obtain ⟨d, subs, fs⟩ := e
    rw [reattach] at hx
    simp only [subNodesRecList, subNodesRec, List.mem_cons,
      List.mem_append] at hx
    have hsplit : subNodesRecList built =
        subNodesRecList (built.take subs.length) ++
          subNodesRecList (built.drop subs.length) := by
      rw [← subNodesRecList_append, List.take_append_drop]
    rcases hx with rfl | hx | hx
    · exact Or.inl rfl
    · rw [subNodesRecList_append] at hx
      rcases List.mem_append.mp hx with htk | hfs
      · refine Or.inr (Or.inl ?_)
        rw [hsplit]
        exact List.mem_append_left _ htk
      · exact Or.inr (Or.inr ⟨(d, subs, fs), List.mem_cons_self _ _, hfs⟩)
    · rcases ih (built.drop subs.length) x hx with hdir | hbuilt | ⟨ent, hent, hfs⟩
      · exact Or.inl hdir
      · refine Or.inr (Or.inl ?_)
        rw [hsplit]
        exact List.mem_append_right _ hbuilt
      · exact Or.inr (Or.inr ⟨ent, List.mem_cons_of_mem _ hent, hfs⟩)

/-- Every subtree member of the expanded forest is a directory or a
`createOneFile` product, provided the frontier satisfies the same. -/
theorem expandLevels_out {cfg : GenConfig} :
    ∀ {k : Nat} {frontier : List Node} {r : Rng} {out : List Node} {r' : Rng},
      expandLevels cfg k frontier r = .ok (out, r') →
      (∀ x ∈ subNodesRecList frontier, x.isDir = true) →
      ∀ x ∈ subNodesRecList out, x.isDir = true ∨
        ∃ path ex r₁ r₂, createOneFile cfg path ex r₁ = .ok (x, r₂) := by
  intro k
  induction k with
  | zero =>
    intro frontier r out r' h hfr x hx
    rcases finalPass_out h x hx with hmem | hrest
    · exact Or.inl (hfr x hmem)
    · exact hrest
  | succ k ih =>
    intro frontier r out r' h hfr x hx
    rw [expandLevels] at h
    rw [bind_ok_iff] at h
    obtain ⟨⟨entries, r1⟩, h1, h⟩ := h
    dsimp only at h
    rw [bind_ok_iff] at h
    obtain ⟨⟨built, r2⟩, h2, h⟩ := h
    dsimp only at h
    simp only [Except.ok.injEq, Prod.mk.injEq] at h
    obtain ⟨rfl, -⟩ := h
    rcases reattach_out entries built x hx with hdir | hbuilt | ⟨ent, hent, hfs⟩
    · exact Or.inl hdir
    · refine ih h2 ?_ x hbuilt
      exact recList_flatMap entries (fun e => e.2.1) _
        (fun ent hent => (levelStep_out h1 ent hent).1)
    · obtain ⟨ex, r₁, r₂, hc⟩ := (levelStep_out h1 ent hent).2 x hfs
      exact Or.inr ⟨Node.fullPath ent.1, ex, r₁, r₂, hc⟩

/-- Every subtree member of the logical tree is a directory or a
`createOneFile` product. -/
theorem generateLogicalTree_out {cfg : GenConfig} {r : Rng} {t : Node} {r' : Rng}
    (h : generateLogicalTree cfg r = .ok (t, r')) :
    ∀ x ∈ subNodesRec t, x.isDir = true ∨
      ∃ path ex r₁ r₂, createOneFile cfg path ex r₁ = .ok (x, r₂) := by
  unfold generateLogicalTree at h
  rw [bind_ok_iff] at h
  obtain ⟨⟨startCounts, r1⟩, h1, h⟩ := h
  dsimp only at h
  rw [bind_ok_iff] at h
  obtain ⟨⟨ownersLvl, r2⟩, h2, h⟩ := h
  dsimp only at h
  rw [bind_ok_iff] at h
  obtain ⟨⟨rootOwner, r3⟩, h3, h⟩ := h
  dsimp only at h
  rw [bind_ok_iff] at h
  obtain ⟨⟨subs, r4⟩, h4, h⟩ := h
  dsimp only at h
  rw [bind_ok_iff] at h
  obtain ⟨⟨fs, r5⟩, h5, h⟩ := h
  dsimp only at h
  rw [bind_ok_iff] at h
  obtain ⟨⟨built, r6⟩, h6, h⟩ := h
  dsimp only at h
  simp only [Except.ok.injEq, Prod.mk.injEq] at h
  obtain ⟨rfl, -⟩ := h
  intro x hx
  simp only [subNodesRec] at hx
  rw [subNodesRecList_append] at hx
  rcases List.mem_append.mp hx with hbuilt | hfs
  · refine expandLevels_out h6 ?_ x hbuilt
    intro y hy
    rcases createDirShells_out h4 y hy with hemp | hdir
    · simp [subNodesRecList] at hemp
    · exact hdir
  · rcases createFilesAtLevel_out h5 x hfs with hemp | hcreated
    · simp [subNodesRecList] at hemp
    · exact Or.inr ⟨cfg.dest ++ "/" ++ cfg.name, hcreated⟩

theorem insertDirIdx_isDir (n : Node) (i : Nat) (c : Node)
    (h : n.isDir = true) : (insertDirIdx n i c).1.isDir = true := by
  cases n with
  | dir d nm ow po cs =>
    rw [insertDirIdx]
    by_cases h0 : i = 0
    · simp [h0, Node.isDir]
    · rcases heq : insertDirIdxList cs (i - 1) c with ⟨cs', res⟩
      simp [h0, heq, Node.isDir]
  | file d nm ow s a m => simp [Node.isDir] at h
  | hardLink d nm ow t => simp [Node.isDir] at h
  | symLink d nm ow t s a m => simp [Node.isDir] at h

mutual
theorem insertDirIdx_mem (n : Node) (i : Nat) (c : Node)
    (hc : subNodesRec c = []) (x : Node)
    (hx : x ∈ subNodesRec (insertDirIdx n i c).1) :
    x ∈ subNodesRec n ∨ x = c ∨ x.isDir = true := by
  cases n with
  | dir d nm ow po cs =>
    rw [insertDirIdx] at hx
    by_cases h0 : i = 0
    · simp only [h0, if_pos] at hx
      simp only [subNodesRec] at hx ⊢
      rw [subNodesRecList_append] at hx
      rcases List.mem_append.mp hx with hl | hr
      · exact Or.inl hl
      · simp only [subNodesRecList, hc, List.append_nil, List.nil_append] at hr
        rcases List.mem_cons.mp hr with rfl | hfalse
        · exact Or.inr (Or.inl rfl)
        · simp [subNodesRecList] at hfalse
    · rcases heq : insertDirIdxList cs (i - 1) c with ⟨cs', res⟩
      simp only [h0, if_neg, heq] at hx
      simp only [subNodesRec] at hx ⊢
      have := insertDirIdxList_mem cs (i - 1) c hc x (by rw [heq]; exact hx)
      exact this
  | file d nm ow s a m => simp [insertDirIdx, subNodesRec] at hx
  | hardLink d nm ow t => simp [insertDirIdx, subNodesRec] at hx
  | symLink d nm ow t s a m => simp [insertDirIdx, subNodesRec] at hx

theorem insertDirIdxList_mem (cs : List Node) (i : Nat) (c : Node)
    (hc : subNodesRec c = []) (x : Node)
    (hx : x ∈ subNodesRecList (insertDirIdxList cs i c).1) :
    x ∈ subNodesRecList cs ∨ x = c ∨ x.isDir = true := by
  cases cs with
  | nil => simp [insertDirIdxList, subNodesRecList] at hx
  | cons c0 cs =>
    rw [insertDirIdxList] at hx
    by_cases hd : c0.isDir = true
    · rcases heq : insertDirIdx c0 i c with ⟨c0', res⟩
      cases res with
      | none =>
        simp only [hd, if_pos, heq] at hx
        simp only [subNodesRecList, List.mem_cons, List.mem_append] at hx ⊢
        rcases hx with rfl | hx | hx
        · exact Or.inr (Or.inr (by
            have := insertDirIdx_isDir c0 i c hd
            rw [heq] at this
            exact this))
        · have hx' : x ∈ subNodesRec (insertDirIdx c0 i c).1 := by
            rw [heq]; exact hx
          rcases insertDirIdx_mem c0 i c hc x hx' with hm | hrest
          · exact Or.inl (Or.inr (Or.inl hm))
          · exact Or.inr hrest
        · exact Or.inl (Or.inr (Or.inr hx))
      | some i' =>
        rcases heq2 : insertDirIdxList cs i' c with ⟨cs', res2⟩
        simp only [hd, if_pos, heq, heq2] at hx
        simp only [subNodesRecList, List.mem_cons, List.mem_append] at hx ⊢
        rcases hx with rfl | hx | hx
        · exact Or.inr (Or.inr (by
            have := insertDirIdx_isDir c0 i c hd
            rw [heq] at this
            exact this))
        · have hx' : x ∈ subNodesRec (insertDirIdx c0 i c).1 := by
            rw [heq]; exact hx
          rcases insertDirIdx_mem c0 i c hc x hx' with hm | hrest
          · exact Or.inl (Or.inr (Or.inl hm))
          · exact Or.inr hrest
        · have hx' : x ∈ subNodesRecList (insertDirIdxList cs i' c).1 := by
            rw [heq2]; exact hx
          rcases insertDirIdxList_mem cs i' c hc x hx' with hm | hrest
          · exact Or.inl (Or.inr (Or.inr hm))
          · exact Or.inr hrest
    · rcases heq2 : insertDirIdxList cs i c with ⟨cs', res2⟩
      simp only [hd, if_neg, heq2, Bool.false_eq_true] at hx
      simp only [subNodesRecList, List.mem_cons, List.mem_append] at hx ⊢
      rcases hx with rfl | hx | hx
      · exact Or.inl (Or.inl rfl)
      · exact Or.inl (Or.inr (Or.inl hx))
      · have hx' : x ∈ subNodesRecList (insertDirIdxList cs i c).1 := by
          rw [heq2]; exact hx
        rcases insertDirIdxList_mem cs i c hc x hx' with hm | hrest
        · exact Or.inl (Or.inr (Or.inr hm))
        · exact Or.inr hrest
end

theorem addChildAtDirIndex_mem (t : Node) (i : Nat) (c : Node) (x : Node)
    (hx : x ∈ subNodesRec (addChildAtDirIndex t i c))
    (hc : subNodesRec c = []) :
    x ∈ subNodesRec t ∨ x = c ∨ x.isDir = true := by
  cases t with
  | dir d nm ow po cs =>
    simp only [addChildAtDirIndex, subNodesRec] at hx ⊢
    exact insertDirIdxList_mem cs i c hc x hx
  | file d nm ow s a m => simp [addChildAtDirIndex, subNodesRec] at hx
  | hardLink d nm ow tg => simp [addChildAtDirIndex, subNodesRec] at hx
  | symLink d nm ow tg s a m => simp [addChildAtDirIndex, subNodesRec] at hx

theorem listAccess_ok_iff {α : Type} {l : List α} {i : Nat} {a : α} :
    listAccess l i = .ok a ↔ l.get? i = some a := by
  unfold listAccess
  cases l.get? i <;> simp

/-- Every subtree member after the hard-link phase is an old member, a
HardLink, or a (rewritten) directory. -/
theorem hardLinksLoop_mem {ds fls : List Node} :
    ∀ {k num : Nat} {tree : Node} {r : Rng} {t' : Node} {r' : Rng},
      hardLinksLoop ds fls k num tree r = .ok (t', r') →
      ∀ x ∈ subNodesRec t',
        x ∈ subNodesRec tree ∨ x.isHardLink = true ∨ x.isDir = true := by
  intro k
  induction k with
  | zero =>
    intro num tree r t' r' h x hx
    simp only [hardLinksLoop, Except.ok.injEq, Prod.mk.injEq] at h
    obtain ⟨rfl, -⟩ := h
    exact Or.inl hx
  | succ k ih =>
    intro num tree r t' r' h x hx
    rw [hardLinksLoop] at h
    rw [bind_ok_iff] at h
    obtain ⟨⟨di, r1⟩, h1, h⟩ := h
    dsimp only at h
    rw [bind_ok_iff] at h
    obtain ⟨targetDir, h2, h⟩ := h
    rw [bind_ok_iff] at h
    obtain ⟨⟨fi, r2⟩, h3, h⟩ := h
    dsimp only at h
    rw [bind_ok_iff] at h
    obtain ⟨targetFile, h4, h⟩ := h
    rcases ih h x hx with hmem | hrest
    · rcases addChildAtDirIndex_mem tree di _ x hmem rfl with hm | hc | hd
      · exact Or.inl hm
      · subst hc; exact Or.inr (Or.inl rfl)
      · exact Or.inr (Or.inr hd)
    · exact Or.inr hrest

/-- Every subtree member after the symlink phase is an old member, a
SymLink carrying the empty owner, or a (rewritten) directory. -/
theorem symLinksLoop_mem {cfg : GenConfig} {ds fls : List Node} :
    ∀ {k num : Nat} {tree : Node} {r : Rng} {t' : Node} {r' : Rng},
      symLinksLoop cfg ds fls k num tree r = .ok (t', r') →
      ∀ x ∈ subNodesRec t',
        x ∈ subNodesRec tree ∨ (x.isSymLink = true ∧ x.owner = "") ∨
          x.isDir = true := by
  intro k
  induction k with
  | zero =>
    intro num tree r t' r' h x hx
    simp only [symLinksLoop, Except.ok.injEq, Prod.mk.injEq] at h
    obtain ⟨rfl, -⟩ := h
    exact Or.inl hx
  | succ k ih =>
    intro num tree r t' r' h x hx
    rw [symLinksLoop] at h
    rw [bind_ok_iff] at h
    obtain ⟨⟨di, r1⟩, h1, h⟩ := h
    dsimp only at h
    rw [bind_ok_iff] at h
    obtain ⟨targetDir, h2, h⟩ := h
    rw [bind_ok_iff] at h
    obtain ⟨⟨coin, r2⟩, h3, h⟩ := h
    dsimp only at h
    by_cases hcoin : coin ≠ 0
    all_goals {
      first
      | rw [if_pos hcoin] at h
      | rw [if_neg hcoin] at h
      rw [bind_ok_iff] at h
      obtain ⟨⟨idx2, r3⟩, h4, h⟩ := h
      dsimp only at h
      rw [bind_ok_iff] at h
      obtain ⟨tgt, h5, h⟩ := h
      rw [bind_ok_iff] at h
      obtain ⟨⟨tgt2, r4⟩, h6, h⟩ := h
      dsimp only at h
      rw [bind_ok_iff] at h
      obtain ⟨⟨ta, r5⟩, h7, h⟩ := h
      dsimp only at h
      rw [bind_ok_iff] at h
      obtain ⟨⟨tm, r6⟩, h8, h⟩ := h
      dsimp only at h
      rw [bind_ok_iff] at h
      obtain ⟨⟨ownersLvl, r7⟩, h9, h⟩ := h
      dsimp only at h
      rw [bind_ok_iff] at h
      obtain ⟨⟨ow, r8⟩, h10, h⟩ := h
      dsimp only at h
      rcases ih h x hx with hmem | hrest
      · rcases addChildAtDirIndex_mem tree di _ x hmem rfl with hm | hc | hd
        · exact Or.inl hm
        · subst hc; exact Or.inr (Or.inl ⟨rfl, rfl⟩)
        · exact Or.inr (Or.inr hd)
      · exact Or.inr hrest
    }

/-- The grand characterization of `generate_tree`'s output subtree: every
member is a directory, a `createOneFile` product, a hard link, or a
symlink carrying the empty owner. -/
theorem generateTree_members {cfg : GenConfig} {r : Rng} {t : Node} {r' : Rng}
    (h : generateTree cfg r = .ok (t, r')) :
    ∀ x ∈ subNodesRec t,
      x.isDir = true ∨
      (∃ path ex r₁ r₂, createOneFile cfg path ex r₁ = .ok (x, r₂)) ∨
      x.isHardLink = true ∨
      (x.isSymLink = true ∧ x.owner = "") := by
  unfold generateTree at h
  rw [bind_ok_iff] at h
  obtain ⟨⟨t1, r1⟩, h1, h⟩ := h
  dsimp only at h
  rw [bind_ok_iff] at h
  obtain ⟨⟨t2, r2⟩, h2, h⟩ := h
  dsimp only at h
  intro x hx
  rcases symLinksLoop_mem h x hx with hm2 | hsl | hd
  · rcases hardLinksLoop_mem h2 x hm2 with hm1 | hhl | hd
    · rcases generateLogicalTree_out h1 x hm1 with hd | hfile
      · exact Or.inl hd
      · exact Or.inr (Or.inl hfile)
    · exact Or.inr (Or.inr (Or.inl hhl))
    · exact Or.inl hd
  · exact Or.inr (Or.inr (Or.inr hsl))
  · exact Or.inl hd

/-- C8: every generated plain File's size equals the base byte count of
its size class jittered by at most ±30% (lower bound `int(0.7*base)`,
upper bound `int(1.3*base)`, both attainable); in particular, under
`file_sizes=["small"]` every plain File anywhere in a generated tree has
size in [71680, 133120] bytes. -/
theorem generated_file_sizes_within_jitter :
    (∀ (sizes : List String) (r : Rng) (sz : Nat) (e : String) (r' : Rng),
        genFileParams sizes r = .ok ((sz, e), r') →
        ∃ c ∈ sizes, ∃ b, sizeOfClass c = some b ∧
          b * 7 / 10 ≤ sz ∧ sz ≤ b * 13 / 10) ∧
    (∀ (cfg : GenConfig) (r : Rng) (t : Node) (r' : Rng),
        cfg.fileSizes = ["small"] → generateTree cfg r = .ok (t, r') →
        ∀ x ∈ subNodesRec t, x.isFile = true →
          71680 ≤ x.sizeAttr ∧ x.sizeAttr ≤ 133120) := by
  constructor
  · intro sizes r sz e r' h
    exact genFileParams_bound h
  · intro cfg r t r' hsz h x hx hfile
    rcases generateTree_members h x hx with hd | ⟨path, ex, r₁, r₂, hc⟩ | hhl | ⟨hsl, -⟩
    · cases x <;> simp_all [Node.isDir, Node.isFile]
    · exact (createOneFile_out hc).2 hsz
    · cases x <;> simp_all [Node.isHardLink, Node.isFile]
    · cases x <;> simp_all [Node.isSymLink, Node.isFile]

/-- Concrete check of `generated_file_sizes_within_jitter`. -/
theorem generated_file_sizes_within_jitter_checked :
    (∃ c ∈ ["small"], ∃ b, sizeOfClass c = some b ∧
        b * 7 / 10 ≤ c8par.1.1 ∧ c8par.1.1 ≤ b * 13 / 10) ∧
    (∀ x ∈ subNodesRec c8res.1, x.isFile = true →
        71680 ≤ x.sizeAttr ∧ x.sizeAttr ≤ 133120) :=
  ⟨generated_file_sizes_within_jitter.1 ["small"] ⟨123⟩ c8par.1.1 c8par.1.2
      c8par.2 rfl,
   generated_file_sizes_within_jitter.2 c8cfg (mkRng 7) c8res.1 c8res.2 rfl rfl⟩

/-- C10: every SymLink node is inserted into the logical tree with
`owner=''`; the real owner is assigned only by `make_symlink` during OS
materialization; and `metrics_by_owners` on a directory holding a symlink
whose owner is not a possible owner (as `''` is not, for any configured
owner set without `''`) faults with a lookup failure. -/
theorem symlink_inserted_with_blank_owner :
    (∀ (cfg : GenConfig) (r : Rng) (t : Node) (r' : Rng),
        generateTree cfg r = .ok (t, r') →
        ∀ x ∈ subNodesRec t, x.isSymLink = true → x.owner = "") ∧
    (∀ n sl : Node, sl ∈ dirSymlinks n → sl.owner ∉ n.possibleOwners →
        metricsByOwners n = none) ∧
    (∀ (sl : Node) (ow : String) (os : Nat), sl.isSymLink = true →
        (makeSymlink sl ow os).owner = ow) := by
  refine ⟨?_, ?_, ?_⟩
  · intro cfg r t r' h x hx hsym
    rcases generateTree_members h x hx with hd | ⟨path, ex, r₁, r₂, hc⟩ | hhl | ⟨-, how⟩
    · cases x <;> simp_all [Node.isDir, Node.isSymLink]
    · have := (createOneFile_out hc).1
      cases x <;> simp_all [Node.isFile, Node.isSymLink]
    · cases x <;> simp_all [Node.isHardLink, Node.isSymLink]
    · exact how
  · intro n sl hsl hnot
    unfold metricsByOwners
    have hmem : (sl.owner, fileCredit sl) ∈ metricsCredits n := by
      unfold metricsCredits
      refine List.mem_append_left _ (List.mem_append_left _ ?_)
      exact List.mem_map.mpr ⟨sl, List.mem_append_right _ hsl, rfl⟩
    exact applyCredits_none hmem hnot
  · intro sl ow os hsym
    cases sl <;> simp_all [Node.isSymLink, makeSymlink, Node.owner]

/-- Concrete check of `symlink_inserted_with_blank_owner`: the seed-0 run
(generating one symlink) has only blank-owner symlinks, the metrics fault
fires on the sample directory, and `make_symlink` assigns the real owner. -/
theorem symlink_inserted_with_blank_owner_checked :
    (∀ x ∈ subNodesRec c10res.1, x.isSymLink = true → x.owner = "") ∧
      metricsByOwners c10dir = none ∧
      (makeSymlink c10sl "admin" 5).owner = "admin" :=
  ⟨symlink_inserted_with_blank_owner.1 c10cfg (mkRng 0) c10res.1 c10res.2 rfl,
   symlink_inserted_with_blank_owner.2.1 c10dir c10sl
     (by rw [show dirSymlinks c10dir = [c10sl] from rfl]
         exact List.mem_singleton.mpr rfl)
     (by decide),
   symlink_inserted_with_blank_owner.2.2 c10sl "admin" 5 rfl⟩

end UnixTreeGen
